import Mathlib

/-!
# Leader-cast transport and duty fetcher of charon

A shallow embedding of `core/leadercast/transport.go` and of the behaviour that
`core/fetcher/fetcher_test.go` exercises, followed by the theorems about them.

Conventions of the embedding:

* Go `error` values are the inductive `Error`; `errors.Wrap` is `Error.wrap`.
* Go maps are association lists with pairwise distinct keys (`GoMap.WF`);
  assignment `m[k] = v` is `GoMap.set`, lookup is `GoMap.get?`, and `range`
  visits the entries in the order of the list, which stands for the order the
  runtime happens to pick.  A nil map and an empty map are both `[]`.
* Go channels are the queue of messages that were handed to the channel and
  have not been received yet.
* `encoding/json` and package `core` are not part of the two source files; the
  functions used from them are fields of `JSONLib` and `CoreLib`.  What
  `encoding/json` guarantees is the law `JSONLib.Sound`, stated over what the
  library makes of map keys and raw values (`JSONText`); `goJSON` is a model of the
  library that keeps the law.
* A `core.PubKey` is a Go string, a sequence of bytes that need not be valid UTF-8.
-/

namespace Charon

/-! ## Errors -/

/-- Go error values built by `errors.New` and `errors.Wrap`.  Modelled from the spec:
the third constructor is the class of retryable domain errors of section 7, which
the spec keeps distinguishable from a provider error wrapped with call-site
context. -/
inductive Error where
  | new (msg : String)
  | wrap (cause : Error) (msg : String)
  | retryable (msg : String)
  deriving DecidableEq, Repr

/-- The chain walked by `errors.Is`: an error is itself or is what it wraps. -/
def Error.Is : Error → Error → Bool
  | .new m, target => decide (Error.new m = target)
  | .wrap c m, target => decide (Error.wrap c m = target) || Error.Is c target
  | .retryable m, target => decide (Error.retryable m = target)

/-- Text of an error as `Error()` prints a wrapped chain: outer message first. -/
def Error.text : Error → String
  | .new m => m
  | .wrap c m => m ++ ": " ++ Error.text c
  | .retryable m => m

/-- Modelled from the spec: the classification of section 7.  An error is classified
retryable when it is a retryable domain error itself; an error wrapped with
call-site context, as every provider error is, is not. -/
def Error.classifiedRetryable : Error → Bool
  | .retryable _ => true
  | _ => false

/-! ## Go maps -/

/-- Lookup `m[k]` with the comma-ok result as an `Option`. -/
def GoMap.get? {K V : Type} [DecidableEq K] : List (K × V) → K → Option V
  | [], _ => none
  | (k0, v0) :: m, k => if k0 = k then some v0 else GoMap.get? m k

/-- Assignment `m[k] = v`: replaces the entry of `k` or adds one. -/
def GoMap.set {K V : Type} [DecidableEq K] : List (K × V) → K → V → List (K × V)
  | [], k, v => [(k, v)]
  | (k0, v0) :: m, k, v => if k0 = k then (k, v) :: m else (k0, v0) :: GoMap.set m k v

/-- Keys of a map, in iteration order. -/
def GoMap.keys {K V : Type} (m : List (K × V)) : List K := m.map Prod.fst

/-- Well-formedness of a Go map: no key occurs twice. -/
def GoMap.WF {K V : Type} (m : List (K × V)) : Prop := (GoMap.keys m).Nodup

instance {K V : Type} [DecidableEq K] (m : List (K × V)) : Decidable (GoMap.WF m) := by
  unfold GoMap.WF; infer_instance

/-- The loop shape shared by the two codecs of `p2pMsg`:
`for key, val := range src { x, err := f(val); if err != nil { return wrap(err, msg) }; dst[key] = x }`. -/
def rangeSet {K V X : Type} [DecidableEq K] (f : V → Except Error X) (msg : String) :
    List (K × V) → List (K × X) → Except Error (List (K × X))
  | [], dst => .ok dst
  | (key, val) :: rest, dst =>
    match f val with
    | .error err => .error (.wrap err msg)
    | .ok x => rangeSet f msg rest (GoMap.set dst key x)

/-! ## Data model of package `core` used by the transport -/

/-- A byte of a Go string. -/
abbrev Byte := Fin 256

/-- The type `core.PubKey`, a Go string: a sequence of bytes, which need not be
valid UTF-8. -/
abbrev PubKey := List Byte

/-- Modelled from the spec: `core.DutyType`, whose declaration is outside the two
source files.  The spec lists the kinds below and leaves the list open; `other`
carries every further integer tag a wire document can hold. -/
inductive DutyType where
  | Attester
  | Aggregator
  | PrepareAggregator
  | Proposer
  | BuilderProposer
  | SyncMessage
  | PrepareSyncContribution
  | SyncContribution
  | other (tag : Nat)
  deriving DecidableEq, Repr

/-- The struct `core.Duty`: slot and type. -/
structure Duty where
  Slot : Int
  Typ : DutyType
  deriving DecidableEq, Repr

/-- The zero value `core.Duty{}`.  Modelled from the spec: the zero tag is none of
the listed kinds. -/
def Duty.zero : Duty := ⟨0, .other 0⟩

/-- A `json.RawMessage`: the bytes of the JSON value of one payload. -/
abbrev RawMessage := List Nat

/-- The map `core.UnsignedDataSet`: public key to unsigned data. -/
abbrev UnsignedDataSet (U : Type) := List (PubKey × U)

/-- The functions of package `core` the transport calls on unsigned data of type `U`:
the method `MarshalJSON` of the interface `core.UnsignedData` and the function
`core.UnmarshalUnsignedData`. -/
structure CoreLib (U : Type) where
  MarshalJSON : U → Except Error RawMessage
  UnmarshalUnsignedData : DutyType → RawMessage → Except Error U

/-- A duty type tag is recognised by the decode dispatch when some payload decodes
under it. -/
def CoreLib.Recognized {U : Type} (core : CoreLib U) (t : DutyType) : Prop :=
  ∃ b u, core.UnmarshalUnsignedData t b = .ok u

/-! ## The wire message (transport.go, lines 135-195) -/

/-- The struct `p2pMsg`. -/
structure p2pMsg (U : Type) where
  Idx : Int
  FromIdx : Int
  Duty : Duty
  Data : UnsignedDataSet U
  deriving DecidableEq, Repr

/-- The struct `p2pMsgJSON`: the document that goes on the wire. -/
structure p2pMsgJSON where
  Idx : Int
  FromIdx : Int
  Duty : Duty
  Data : List (PubKey × RawMessage)
  deriving DecidableEq, Repr

/-- The two functions of `encoding/json` applied to `p2pMsgJSON`, over wire bytes `W`. -/
structure JSONLib (W : Type) where
  Marshal : p2pMsgJSON → Except Error W
  Unmarshal : W → Except Error p2pMsgJSON

/-- What `encoding/json` makes of the two kinds of text in a `p2pMsgJSON` document
between writing the document and reading it back.  `key k` is the map key `k` as it
reads back: the library writes a key as a JSON string and replaces what is not
valid UTF-8 in it.  `compact v` is the raw value `v` as it reads back: the library
validates and compacts a `json.RawMessage` when it writes it, and `none` stands for
a `v` that is no valid JSON text, which makes the encoding fail. -/
structure JSONText where
  key : PubKey → PubKey
  compact : RawMessage → Option RawMessage

/-- What `encoding/json` guarantees for `p2pMsgJSON`, given what it makes of keys and
raw values.  A document with a raw value that is no valid JSON text is not
encoded.  A document whose raw values are all valid is encoded, and decoding the
encoding gives back the same integers, the same duty and a well-formed map that
holds, under the key every key of the document reads back as, the compaction of a
raw value the document holds under such a key.  Two keys that read back as the same
key leave one entry. -/
def JSONLib.Sound {W : Type} (lib : JSONLib W) (tx : JSONText) : Prop :=
  ∀ doc : p2pMsgJSON, GoMap.WF doc.Data →
    ((∃ k v, (k, v) ∈ doc.Data ∧ tx.compact v = none) → ∃ e, lib.Marshal doc = .error e) ∧
    ((∀ k v, (k, v) ∈ doc.Data → ∃ c, tx.compact v = some c) →
      ∃ w doc2, lib.Marshal doc = .ok w ∧ lib.Unmarshal w = .ok doc2 ∧
        doc2.Idx = doc.Idx ∧ doc2.FromIdx = doc.FromIdx ∧ doc2.Duty = doc.Duty ∧
        GoMap.WF doc2.Data ∧
        (∀ k v, (k, v) ∈ doc.Data → tx.key k ∈ GoMap.keys doc2.Data) ∧
        (∀ k2 v2, GoMap.get? doc2.Data k2 = some v2 →
          ∃ k v, (k, v) ∈ doc.Data ∧ tx.key k = k2 ∧ tx.compact v = some v2))

/-- The method `func (m p2pMsg) MarshalJSON() ([]byte, error)`, lines 142-163. -/
def p2pMsg.MarshalJSON {U W : Type} (lib : JSONLib W) (core : CoreLib U) (m : p2pMsg U) :
    Except Error W :=
  match rangeSet core.MarshalJSON "marshal unsigned data" m.Data [] with
  | .error err => .error err
  | .ok data =>
    match lib.Marshal { Idx := m.Idx, FromIdx := m.FromIdx, Duty := m.Duty, Data := data } with
    | .error err => .error (.wrap err "marshal p2p msg")
    | .ok b => .ok b

/-- The method `func (m *p2pMsg) UnmarshalJSON(input []byte) error`, lines 165-188; the
message written through the receiver is the `ok` value. -/
def p2pMsg.UnmarshalJSON {U W : Type} (lib : JSONLib W) (core : CoreLib U) (input : W) :
    Except Error (p2pMsg U) :=
  match lib.Unmarshal input with
  | .error err => .error (.wrap err "unmarshal p2p msg")
  | .ok msg =>
    match rangeSet (core.UnmarshalUnsignedData msg.Duty.Typ) "marshal unsigned data" msg.Data [] with
    | .error err => .error err
    | .ok set => .ok { Idx := msg.Idx, FromIdx := msg.FromIdx, Duty := msg.Duty, Data := set }

/-! ## Concrete libraries used to evaluate the definitions -/

/-- A sample payload type with two variants. -/
inductive SampleData where
  | att (n : Nat)
  | block (n : Nat)
  deriving DecidableEq, Repr

/-- Modelled from the spec: `core.UnmarshalUnsignedData` as a decode-dispatch table
keyed by the duty type tag that rejects every tag without an entry, together with
the matching `MarshalJSON`; here over `SampleData` with entries for Attester and
Proposer. -/
def sampleCore : CoreLib SampleData where
  MarshalJSON
    | .att n => .ok [n]
    | .block n => .ok [n]
  UnmarshalUnsignedData
    | .Attester, b => match b with
      | [n] => .ok (.att n)
      | _ => .error (.new "unmarshal attestation data")
    | .Proposer, b => match b with
      | [n] => .ok (.block n)
      | _ => .error (.new "unmarshal proposer data")
    | _, _ => .error (.new "unsupported unsigned data duty type")

/-- A JSON library whose wire form is the document itself. -/
def docJSON : JSONLib p2pMsgJSON where
  Marshal doc := .ok doc
  Unmarshal w := .ok w

/-- The width `utf8.DecodeRuneInString` answers for the head of a string, as `encoding/json`
reads it when it writes a string: the number of bytes of the UTF-8 encoding at the
head, and `none` where the function answers `RuneError` of width 1 because no valid
encoding starts there.  The ranges are those of the tables `first` and
`acceptRanges` of package `unicode/utf8`. -/
def utf8Width : List Byte → Option Nat
  | [] => none
  | b0 :: rest =>
    if b0.val < 0x80 then some 1
    else if b0.val < 0xC2 then none
    else if b0.val < 0xE0 then
      match rest with
      | b1 :: _ => if 0x80 ≤ b1.val ∧ b1.val ≤ 0xBF then some 2 else none
      | _ => none
    else if b0.val < 0xF0 then
      match rest with
      | b1 :: b2 :: _ =>
        if (if b0.val = 0xE0 then 0xA0 else 0x80) ≤ b1.val ∧
            b1.val ≤ (if b0.val = 0xED then 0x9F else 0xBF) ∧
            0x80 ≤ b2.val ∧ b2.val ≤ 0xBF then some 3
        else none
      | _ => none
    else if b0.val < 0xF5 then
      match rest with
      | b1 :: b2 :: b3 :: _ =>
        if (if b0.val = 0xF0 then 0x90 else 0x80) ≤ b1.val ∧
            b1.val ≤ (if b0.val = 0xF4 then 0x8F else 0xBF) ∧
            0x80 ≤ b2.val ∧ b2.val ≤ 0xBF ∧ 0x80 ≤ b3.val ∧ b3.val ≤ 0xBF then some 4
        else none
      | _ => none
    else none

/-- The bytes of a string as they read back after `encoding/json` wrote the string and
read it, with `n` bytes of a valid encoding still to copy: the bytes of a valid
UTF-8 encoding are kept (an escape the library writes for them reads back as the
same bytes), and a byte at which no valid encoding starts is written as the escape
of U+FFFD, which reads back as the three bytes EF BF BD. -/
def jsonKeyFrom : Nat → List Byte → List Byte
  | _, [] => []
  | n + 1, b :: rest => b :: jsonKeyFrom n rest
  | 0, b :: rest =>
    match utf8Width (b :: rest) with
    | none => 0xEF :: 0xBF :: 0xBD :: jsonKeyFrom 0 rest
    | some w => b :: jsonKeyFrom (w - 1) rest

/-- A map key as it reads back after `encoding/json` wrote it and read it. -/
def jsonKey (k : PubKey) : PubKey := jsonKeyFrom 0 k

/-- The order `strings.Compare` puts two strings in: byte by byte. -/
def bytesLE : List Byte → List Byte → Bool
  | [], _ => true
  | _ :: _, [] => false
  | a :: as, b :: bs => decide (a < b) || (decide (a = b) && bytesLE as bs)

/-- Insertion of a map entry into entries sorted by key. -/
def insertMember (e : PubKey × RawMessage) :
    List (PubKey × RawMessage) → List (PubKey × RawMessage)
  | [] => [e]
  | e0 :: rest => if bytesLE e.1 e0.1 then e :: e0 :: rest else e0 :: insertMember e rest

/-- The entries of a map sorted by key, the order in which `encoding/json` writes them. -/
def sortMembers (m : List (PubKey × RawMessage)) : List (PubKey × RawMessage) :=
  m.foldr insertMember []

/-- The members of the JSON object written for entries of a map: each key as it is
written and each raw value compacted; `none` when a raw value is no valid JSON
text. -/
def writeMembers (tx : JSONText) :
    List (PubKey × RawMessage) → Option (List (PubKey × RawMessage))
  | [] => some []
  | (k, v) :: rest =>
    match tx.compact v, writeMembers tx rest with
    | some c, some out => some ((tx.key k, c) :: out)
    | _, _ => none

/-- The map read from the members of a JSON object: each member is assigned under its
key in the order of the text, so a later member replaces an earlier one of the same
key. -/
def readMembers :
    List (PubKey × RawMessage) → List (PubKey × RawMessage) → List (PubKey × RawMessage)
  | [], m => m
  | (k, v) :: rest, m => readMembers rest (GoMap.set m k v)

/-- A model of `encoding/json` on `p2pMsgJSON` whose wire form is the document as the JSON
text holds it: the integers, the duty and the members of the data object in the
order and with the keys and values that were written. -/
def goJSON (tx : JSONText) : JSONLib p2pMsgJSON where
  Marshal doc :=
    match writeMembers tx (sortMembers doc.Data) with
    | none => .error (.new "json: error calling MarshalJSON for type json.RawMessage")
    | some members => .ok { doc with Data := members }
  Unmarshal w := .ok { w with Data := readMembers w.Data [] }

/-- Whether a text is a JSON number written as decimal digits without a leading zero. -/
def isNumberText (v : RawMessage) : Bool :=
  v.all (fun b => decide (48 ≤ b ∧ b ≤ 57)) && (v.length == 1 || (v.headD 48 != 48))

/-- The texts of the sample documents: keys read back as `jsonKey` gives them; the
sample payloads are JSON numbers in decimal digits, which are compact as they are;
no other text is written in the samples, and every other text counts as invalid. -/
def sampleText : JSONText where
  key := jsonKey
  compact v := if isNumberText v then some v else none

/-! ## The peer-to-peer transport (transport.go, lines 32-133) -/

/-- A libp2p `peer.ID`. -/
abbrev PeerID := String

/-- What the network answers to the three stream operations of one `sendData`
call: for each operation the error it returns, if any. -/
structure StreamScript where
  NewStream : Option Error
  Write : Option Error
  Close : Option Error
  deriving DecidableEq, Repr

/-- One stream operation performed on the host. -/
inductive NetEvent (W : Type) where
  | NewStream (p : PeerID)
  | Write (p : PeerID) (b : W)
  | Close (p : PeerID)
  deriving DecidableEq, Repr

/-- The host `tcpNode` as seen by `Broadcast`: the answers the network will give to
the coming streams, one script per stream (a stream past the end of the list
succeeds), and the operations performed so far. -/
structure Net (W : Type) where
  script : List StreamScript
  trace : List (NetEvent W)
  deriving DecidableEq, Repr

/-- The peers for which a stream was requested, in order. -/
def Net.attempts {W : Type} (net : Net W) : List PeerID :=
  net.trace.filterMap fun
    | .NewStream p => some p
    | _ => none

/-- The writes performed, in order. -/
def Net.writes {W : Type} (net : Net W) : List (PeerID × W) :=
  net.trace.filterMap fun
    | .Write p b => some (p, b)
    | _ => none

/-- The function `func sendData(ctx, t, p, b) error`, lines 116-133. -/
def sendData {W : Type} (net : Net W) (p : PeerID) (b : W) : Option Error × Net W :=
  let sc : StreamScript := net.script.headD ⟨none, none, none⟩
  let net1 : Net W := { script := net.script.tail, trace := net.trace ++ [.NewStream p] }
  match sc.NewStream with
  | some err => (some (.wrap err "tcpNode stream"), net1)
  | none =>
    let net2 : Net W := { net1 with trace := net1.trace ++ [.Write p b] }
    match sc.Write with
    | some err => (some (.wrap err "tcpNode write"), net2)
    | none =>
      let net3 : Net W := { net2 with trace := net2.trace ++ [.Close p] }
      match sc.Close with
      | some err => (some (.wrap err "tcpNode close"), net3)
      | none => (none, net3)

/-- A line written by package `log`. -/
inductive LogEntry where
  | Debug (msg : String)
  | Warn (msg : String) (err : Option Error) (fields : List (String × Int))
  | Error (msg : String) (err : Error)
  deriving DecidableEq, Repr

/-- The struct `p2pTransport`; the host is passed to the methods as a `Net`, and
the channel `ch` is the queue of messages handed to it and not yet received. -/
structure p2pTransport (U : Type) where
  peerIDx : Int
  peers : List PeerID
  ch : List (p2pMsg U)
  deriving DecidableEq, Repr

/-- The loop of `Broadcast`, lines 84-94, from position `idx` of the peer list on. -/
def broadcastLoop {W : Type} (peerIDx : Int) (b : W) :
    Nat → List PeerID → Net W → List Error → Net W × List Error
  | _, [], net, errs => (net, errs)
  | idx, p :: ps, net, errs =>
    if (idx : Int) = peerIDx then
      broadcastLoop peerIDx b (idx + 1) ps net errs
    else
      match sendData net p b with
      | (some err, net1) => broadcastLoop peerIDx b (idx + 1) ps net1 (errs ++ [err])
      | (none, net1) => broadcastLoop peerIDx b (idx + 1) ps net1 errs

/-- What a call of `Broadcast` leaves behind: the returned error, the host and the
log line. -/
structure BroadcastResult (W : Type) where
  err : Option Error
  net : Net W
  log : List LogEntry
  deriving DecidableEq, Repr

/-- The method `func (t *p2pTransport) Broadcast(ctx, fromIdx, d, data) error`, lines 72-105. -/
def p2pTransport.Broadcast {U W : Type} (lib : JSONLib W) (core : CoreLib U)
    (t : p2pTransport U) (net : Net W) (fromIdx : Int) (d : Duty) (data : UnsignedDataSet U) :
    BroadcastResult W :=
  match p2pMsg.MarshalJSON lib core { Idx := 0, FromIdx := fromIdx, Duty := d, Data := data } with
  | .error err => { err := some (.wrap err "marshal tcpNode msg"), net := net, log := [] }
  | .ok b =>
    match broadcastLoop t.peerIDx b 0 t.peers net [] with
    | (net1, []) =>
      { err := none, net := net1, log := [.Debug "Leader propose value success"] }
    | (net1, e :: errs) =>
      { err := none, net := net1,
        log := [.Warn "Leader propose value with errors" (some e)
          [("success", (t.peers.length : Int) - ((e :: errs).length : Int) - 1),
           ("errors", ((e :: errs).length : Int))]] }

/-- A `context.Context` as the transport reads it: `none` while it is live, and the
value of `ctx.Err()` once it is done. -/
abbrev Context := Option Error

/-- The four results of `AwaitNext`. -/
structure AwaitResult (U : Type) where
  fromIdx : Int
  d : Duty
  data : UnsignedDataSet U
  err : Option Error
  deriving DecidableEq, Repr

/-- The `select` of both `AwaitNext` methods on the channel queue `ch`: `none` when
neither case is ready (the call blocks); when both are ready `pick` is the case the
runtime chooses (`true` for `ctx.Done()`).  Returns the results and the rest of the
queue. -/
def awaitSelect {U : Type} (ctx : Context) (pick : Bool) (ch : List (p2pMsg U)) :
    Option (AwaitResult U × List (p2pMsg U)) :=
  match ctx, ch with
  | none, [] => none
  | some err, [] => some (⟨0, Duty.zero, [], some err⟩, [])
  | none, msg :: rest => some (⟨msg.FromIdx, msg.Duty, msg.Data, none⟩, rest)
  | some err, msg :: rest =>
    if pick then some (⟨0, Duty.zero, [], some err⟩, msg :: rest)
    else some (⟨msg.FromIdx, msg.Duty, msg.Data, none⟩, rest)

/-- The method `func (t *p2pTransport) AwaitNext(ctx)`, lines 107-114. -/
def p2pTransport.AwaitNext {U : Type} (t : p2pTransport U) (ctx : Context) (pick : Bool) :
    Option (AwaitResult U × p2pTransport U) :=
  (awaitSelect ctx pick t.ch).map fun (r, ch) => (r, { t with ch := ch })

/-- The call `json.NewDecoder(s).Decode(&msg)`, line 60: the stream is read, which can fail,
and what was read goes through `p2pMsg.UnmarshalJSON`. -/
def decodeStream {U W : Type} (lib : JSONLib W) (core : CoreLib U) (s : Except Error W) :
    Except Error (p2pMsg U) :=
  match s with
  | .error err => .error err
  | .ok input => p2pMsg.UnmarshalJSON lib core input

/-- The method `func (t *p2pTransport) handle(s network.Stream)`, lines 52-70.  `s` is what
reading the stream yields; `accepted` tells which case of the `select` fires: the
send on `t.ch` (`true`) or the one-second deadline (`false`). -/
def p2pTransport.handle {U W : Type} (lib : JSONLib W) (core : CoreLib U)
    (t : p2pTransport U) (s : Except Error W) (accepted : Bool) :
    p2pTransport U × List LogEntry :=
  match decodeStream lib core s with
  | .error err => (t, [.Error "Decode leadercast message" err])
  | .ok msg =>
    if accepted then ({ t with ch := t.ch ++ [msg] }, [])
    else (t, [.Warn "Leadercast transport buffer full" none []])

/-- The peer list in its order with the entry at the self index removed; an index
outside the list removes nothing. -/
def otherPeers (peerIDx : Int) (peers : List PeerID) : List PeerID :=
  if 0 ≤ peerIDx then peers.eraseIdx peerIDx.toNat else peers

/-- Whether the send over a stream with this script fails: one of the three stream
operations returns an error. -/
def StreamScript.fails (sc : StreamScript) : Bool :=
  sc.NewStream.isSome || sc.Write.isSome || sc.Close.isSome

/-- The number of sends that fail among the first `n` streams the network serves. -/
def Net.failures {W : Type} (net : Net W) (n : Nat) : Nat :=
  ((net.script.take n).filter StreamScript.fails).length

/-- The stream operations of one send of `b` to `p` over a stream that answers by
`sc`: the stream is requested; once it is open, `b` is written to it; once `b` is
written, it is closed. -/
def sendEvents {W : Type} (sc : StreamScript) (p : PeerID) (b : W) : List (NetEvent W) :=
  .NewStream p ::
    (match sc.NewStream with
     | some _ => []
     | none => .Write p b ::
       (match sc.Write with
        | some _ => []
        | none => [.Close p]))

/-- The stream operations of one send of `b` to each of the peers in turn, the
network answering the sends by the scripts in turn. -/
def sendsTrace {W : Type} (b : W) : List PeerID → List StreamScript → List (NetEvent W)
  | [], _ => []
  | p :: ps, script =>
    sendEvents (script.headD ⟨none, none, none⟩) p b ++ sendsTrace b ps script.tail

/-- The peers among `ps` whose stream opens, the network answering the sends by the
scripts in turn. -/
def openedPeers : List PeerID → List StreamScript → List PeerID
  | [], _ => []
  | p :: ps, script =>
    if (script.headD ⟨none, none, none⟩).NewStream.isNone then
      p :: openedPeers ps script.tail
    else openedPeers ps script.tail

/-! ## The in-memory transport (transport.go, lines 197-277) -/

/-- The variables captured by the closures of `NewMemTransportFunc`: the channel
`input`, the registry `outputs` and the counter `index`.  The mutex `mu` makes
registration and one fan-out atomic, which is what a step of this state is.  The
`ctx.Done()` case of the delivery loop ends the loop, so a stopped hub behaves as
a run that takes no further step.  The channels are unbuffered: the loop hands a
message to one mailbox after the other and waits for each receiver, so a run of the
program is a run of this state in which the mailboxes are emptied between two
turns of the loop; every handle sees the same sequence of messages in both. -/
structure MemHub (U : Type) where
  input : List (p2pMsg U)
  outputs : List (Int × List (p2pMsg U))
  index : Int
  deriving DecidableEq, Repr

/-- The state right after `NewMemTransportFunc(ctx)` returns. -/
def MemHub.init {U : Type} : MemHub U := { input := [], outputs := [], index := 0 }

/-- The struct `memTransport`; its two channels are the `input` of the hub and the
entry `outputs[idx]`. -/
structure memTransport where
  idx : Int
  deriving DecidableEq, Repr

/-- The closure returned by `NewMemTransportFunc`, lines 227-242. -/
def MemHub.newTransport {U : Type} (h : MemHub U) : memTransport × MemHub U :=
  let idx := h.index
  ({ idx := idx }, { h with outputs := GoMap.set h.outputs idx [], index := h.index + 1 })

/-- The fan-out `for idx, output := range outputs`, lines 214-219. -/
def fanOut {U : Type} (msg : p2pMsg U) :
    List (Int × List (p2pMsg U)) → List (Int × List (p2pMsg U))
  | [] => []
  | (idx, output) :: rest =>
    if msg.Idx = idx then (idx, output) :: fanOut msg rest
    else (idx, output ++ [msg]) :: fanOut msg rest

/-- One turn of the delivery loop, lines 212-220: receive from `input` and fan out;
`none` when `input` holds nothing. -/
def MemHub.deliver {U : Type} (h : MemHub U) : Option (MemHub U) :=
  match h.input with
  | [] => none
  | msg :: rest => some { h with input := rest, outputs := fanOut msg h.outputs }

/-- The method `func (m memTransport) Broadcast(ctx, fromIdx, duty, data) error`, lines 252-266.
`pick` is the case the runtime chooses when the context is done and the send is
possible too (`true` for `ctx.Done()`). -/
def memTransport.Broadcast {U : Type} (m : memTransport) (h : MemHub U) (ctx : Context)
    (pick : Bool) (fromIdx : Int) (duty : Duty) (data : UnsignedDataSet U) :
    Option Error × MemHub U :=
  let msg : p2pMsg U := { Idx := m.idx, FromIdx := fromIdx, Duty := duty, Data := data }
  match ctx with
  | some err => if pick then (some err, h) else (none, { h with input := h.input ++ [msg] })
  | none => (none, { h with input := h.input ++ [msg] })

/-- The channel `m.output` of a handle: the mailbox registered under its index. -/
def memTransport.output {U : Type} (m : memTransport) (h : MemHub U) : List (p2pMsg U) :=
  (GoMap.get? h.outputs m.idx).getD []

/-- The method `func (m memTransport) AwaitNext(ctx)`, lines 268-277; `none` when the call
blocks.  When the `ctx.Done()` case fires the hub is left as it is; when a message is
received the mailbox of the handle keeps the rest of its queue. -/
def memTransport.AwaitNext {U : Type} (m : memTransport) (h : MemHub U) (ctx : Context)
    (pick : Bool) : Option (AwaitResult U × MemHub U) :=
  match awaitSelect ctx pick (m.output h) with
  | none => none
  | some (r, ch) =>
    match r.err with
    | some _ => some (r, h)
    | none => some (r, { h with outputs := GoMap.set h.outputs m.idx ch })

/-- The handles of the hub `h` whose mailbox holds more messages in the later state
`h2`: the handles that were handed a message between the two states. -/
def MemHub.grown {U : Type} (h h2 : MemHub U) : List Int :=
  (GoMap.keys h.outputs).filter fun j =>
    decide (((GoMap.get? h.outputs j).getD []).length <
      ((GoMap.get? h2.outputs j).getD []).length)

/-- The hub after `n` calls of the factory closure, one after the other. -/
def MemHub.registerN {U : Type} : Nat → MemHub U → MemHub U
  | 0, h => h
  | n + 1, h => MemHub.registerN n h.newTransport.2

/-- The steps of a hub: a handle is created, a `Broadcast` runs on a handle, the
delivery loop takes one turn, an `AwaitNext` runs on a handle. -/
inductive HubStep (U : Type) where
  | register
  | broadcast (m : memTransport) (ctx : Context) (pick : Bool) (fromIdx : Int) (duty : Duty)
      (data : UnsignedDataSet U)
  | deliver
  | awaitNext (m : memTransport) (ctx : Context) (pick : Bool)
  deriving DecidableEq, Repr

/-- A hub together with the record of what has happened on it: the messages
accepted into `input`, in order; the messages fanned out, in order, each with the
handles registered at that moment; and the messages returned by `AwaitNext`, in
order, each with the receiving handle.  The record is written and never read by
the steps. -/
structure HubRun (U : Type) where
  hub : MemHub U
  accepted : List (p2pMsg U)
  delivered : List (p2pMsg U × List Int)
  received : List (Int × p2pMsg U)
  deriving DecidableEq, Repr

/-- The run of the fresh hub. -/
def HubRun.init {U : Type} : HubRun U :=
  { hub := MemHub.init, accepted := [], delivered := [], received := [] }

/-- A handle exists on a hub when the factory closure has returned it. -/
def memTransport.existsOn {U : Type} (m : memTransport) (h : MemHub U) : Bool :=
  decide (0 ≤ m.idx) && decide (m.idx < h.index)

/-- One step of a run.  A step on a handle the factory has not produced, a turn of
the loop with nothing in `input` and an `AwaitNext` that blocks leave the run as it is. -/
def HubRun.step {U : Type} (r : HubRun U) : HubStep U → HubRun U
  | .register => { r with hub := r.hub.newTransport.2 }
  | .broadcast m ctx pick fromIdx duty data =>
    if m.existsOn r.hub then
      match m.Broadcast r.hub ctx pick fromIdx duty data with
      | (some _, h) => { r with hub := h }
      | (none, h) =>
        { r with hub := h, accepted := r.accepted ++ [⟨m.idx, fromIdx, duty, data⟩] }
    else r
  | .deliver =>
    match r.hub.input, r.hub.deliver with
    | msg :: _, some h =>
      { r with hub := h, delivered := r.delivered ++ [(msg, GoMap.keys r.hub.outputs)] }
    | _, _ => r
  | .awaitNext m ctx pick =>
    if m.existsOn r.hub then
      match m.AwaitNext r.hub ctx pick with
      | none => r
      | some (res, h) =>
        match res.err, m.output r.hub with
        | none, msg :: _ => { r with hub := h, received := r.received ++ [(m.idx, msg)] }
        | _, _ => { r with hub := h }
    else r

/-- The run after a list of steps from the fresh hub. -/
def HubRun.exec {U : Type} (steps : List (HubStep U)) : HubRun U :=
  steps.foldl HubRun.step HubRun.init

/-- The messages handle `j` got from `AwaitNext`, in order. -/
def HubRun.receivedBy {U : Type} (r : HubRun U) (j : Int) : List (p2pMsg U) :=
  (r.received.filter fun e => decide (e.1 = j)).map Prod.snd

/-- The messages the delivery loop owed to handle `j`, in the order of their
fan-out: those fanned out while `j` was registered and not sent from `j`. -/
def HubRun.owedTo {U : Type} (r : HubRun U) (j : Int) : List (p2pMsg U) :=
  (r.delivered.filter fun e => decide (j ∈ e.2) && !decide (e.1.Idx = j)).map Prod.fst

/-- The invariant of a run: the registry is a well-formed map whose handles lie
below the counter; every handle that was registered at a fan-out or that received
a message is in the registry; the fanned-out messages followed by the content of
`input` are the accepted messages; and for every registered handle, what it
received followed by what waits in its mailbox is what the loop owed to it. -/
def HubRun.Inv {U : Type} (r : HubRun U) : Prop :=
  GoMap.WF r.hub.outputs ∧
  (∀ k ∈ GoMap.keys r.hub.outputs, k < r.hub.index) ∧
  (∀ e ∈ r.delivered, ∀ k ∈ e.2, k ∈ GoMap.keys r.hub.outputs) ∧
  (∀ e ∈ r.received, e.1 ∈ GoMap.keys r.hub.outputs) ∧
  r.delivered.map Prod.fst ++ r.hub.input = r.accepted ∧
  ∀ j ch, GoMap.get? r.hub.outputs j = some ch → r.receivedBy j ++ ch = r.owedTo j

/-! ## The duty fetcher (package `core/fetcher`, exercised by fetcher_test.go)

The file `fetcher.go` is outside the two source files.  What follows is written
from sections 3, 4.1 and 7 of the design description and from the calls and
assertions of `fetcher_test.go`. -/

/-- Modelled from the spec: `core.DutyDefinition`, the committee assignment of one
validator (committee index and length, slot, validator index). -/
structure DutyDefinition where
  Slot : Int
  ValidatorIndex : Nat
  CommitteeIndex : Nat
  CommitteeLength : Nat
  deriving DecidableEq, Repr

/-- The map `core.DutyDefinitionSet`: public key to duty definition. -/
abbrev DutyDefinitionSet := List (PubKey × DutyDefinition)

/-- The constant `commLenAggregator` of `TestFetchAggregator`: the committee length
that marks an aggregator. -/
def commLenAggregator : Nat := 0

/-- The constant `commLenNoAggregator` of `TestFetchAggregator`: `math.MaxUint64`,
the committee length of a validator that never aggregates. -/
def commLenNoAggregator : Nat := 2 ^ 64 - 1

/-- Attestation data of the consensus layer; `payload` stands for the fields the
fetcher does not read. -/
structure AttData where
  Slot : Int
  Index : Nat
  payload : Nat
  deriving DecidableEq, Repr

/-- An attestation: attestation data and the aggregate signature. -/
structure Attestation where
  Data : AttData
  sig : Nat
  deriving DecidableEq, Repr

/-- A block proposal, full or blinded. -/
structure Block where
  Slot : Int
  RANDAOReveal : Nat
  FeeRecipient : String
  deriving DecidableEq, Repr

/-- A sync committee contribution. -/
structure Contribution where
  Slot : Int
  SubcommitteeIndex : Nat
  BeaconBlockRoot : Nat
  deriving DecidableEq, Repr

/-- Modelled from the spec: `core.UnsignedData`, one variant per duty type. -/
inductive UnsignedData where
  | AttestationData (data : AttData) (duty : DutyDefinition)
  | VersionedBeaconBlock (b : Block)
  | VersionedBlindedBeaconBlock (b : Block)
  | AggregatedAttestation (att : Attestation)
  | SyncContribution (c : Contribution)
  deriving DecidableEq, Repr

/-- Modelled from the spec: `core.SignedData`, the previously agreed artifacts the
fetcher waits for. -/
inductive SignedData where
  | Signature (sig : Nat)
  | BeaconCommitteeSelection (proof : Nat)
  | SyncCommitteeSelection (subcommittee : Nat) (proof : Nat)
  | SignedSyncMessage (beaconBlockRoot : Nat)
  deriving DecidableEq, Repr

/-- Modelled from the spec: the ConsensusProvider of section 6, the lookups the
fetcher makes on the consensus-layer client.  `AggregateAttestation` answers
`ok none` for "not found", as the mock of `TestFetchAggregator` does. -/
structure ConsensusProvider where
  AttestationData : Int → Nat → Except Error AttData
  AggregateAttestation : Int → Nat → Except Error (Option Attestation)
  BeaconBlockProposal : Int → Nat → String → Except Error Block
  BlindedBeaconBlockProposal : Int → Nat → String → Except Error Block
  SyncCommitteeContribution : Int → Nat → Nat → Except Error Contribution

/-- A call made on a collaborator during one `Fetch`. -/
inductive Call where
  | AttestationData (slot : Int) (committee : Nat)
  | AggregateAttestation (slot : Int) (root : Nat)
  | BeaconBlockProposal (slot : Int) (pubkey : PubKey)
  | BlindedBeaconBlockProposal (slot : Int) (pubkey : PubKey)
  | SyncCommitteeContribution (slot : Int) (subcommittee : Nat) (root : Nat)
  | AggSigDB (duty : Duty) (pubkey : PubKey)
  | AwaitAttData (slot : Int) (committee : Nat)
  deriving DecidableEq, Repr

/-- A subscriber callback: the error it returns for a duty and a data set, if any. -/
abbrev Subscriber := Duty → UnsignedDataSet UnsignedData → Option Error

/-- Modelled from the spec: the fetcher of section 4.1 with its collaborators: the
provider and the fee-recipient resolver given to `fetcher.New`, the subscribers in
registration order, the two registered await functions (`none` while
unregistered), the content hash of attestation data and the eligibility predicate
over sync-committee selection proofs. -/
structure Fetcher where
  eth2Cl : ConsensusProvider
  feeRecipientFunc : PubKey → String
  subs : List Subscriber
  aggSigDBFunc : Option (Duty → PubKey → Except Error SignedData)
  awaitAttDataFunc : Option (Int → Nat → Except Error AttData)
  HashTreeRoot : AttData → Nat
  IsSyncCommAggregator : Nat → Bool

/-- What one `Fetch` carries from one validator to the next: the calls made so far
and the answers kept per committee or subcommittee, so that a lookup is made once
per distinct committee. -/
structure FetchState where
  calls : List Call
  attData : List (Nat × AttData)
  aggregates : List (Nat × Attestation)
  contributions : List (Nat × Contribution)
  deriving DecidableEq, Repr

/-- The state at the start of a `Fetch`. -/
def FetchState.init : FetchState := ⟨[], [], [], []⟩

/-- Appends a call to the record. -/
def FetchState.call (s : FetchState) (c : Call) : FetchState :=
  { s with calls := s.calls ++ [c] }

/-- Modelled from the spec: the loop every branch of the dispatch runs over the
definition set.  The body answers an error (the whole fetch fails), `none` (the
validator gets no entry) or the unsigned data stored under the public key. -/
def rangeBuild (body : PubKey → DutyDefinition → FetchState →
      Except Error (Option UnsignedData) × FetchState) :
    DutyDefinitionSet → FetchState → UnsignedDataSet UnsignedData →
      Except Error (UnsignedDataSet UnsignedData) × FetchState
  | [], s, resp => (.ok resp, s)
  | (pubkey, d) :: rest, s, resp =>
    match body pubkey d s with
    | (.error err, s1) => (.error err, s1)
    | (.ok none, s1) => rangeBuild body rest s1 resp
    | (.ok (some data), s1) => rangeBuild body rest s1 (GoMap.set resp pubkey data)

/-- Waits on the registered AggSigDB; an unregistered one is a fatal error. -/
def Fetcher.awaitAggSigDB (f : Fetcher) (duty : Duty) (pubkey : PubKey) (s : FetchState) :
    Except Error SignedData × FetchState :=
  match f.aggSigDBFunc with
  | none => (.error (.new "aggSigDB not registered"), s)
  | some db => (db duty pubkey, s.call (.AggSigDB duty pubkey))

/-- Modelled from the spec: the Attester branch.  Attestation data is queried once
per committee and wrapped with each validator's assignment. -/
def Fetcher.attesterBody (f : Fetcher) (slot : Int) (_pubkey : PubKey) (d : DutyDefinition)
    (s : FetchState) : Except Error (Option UnsignedData) × FetchState :=
  match GoMap.get? s.attData d.CommitteeIndex with
  | some data => (.ok (some (.AttestationData data d)), s)
  | none =>
    let s1 := s.call (.AttestationData slot d.CommitteeIndex)
    match f.eth2Cl.AttestationData slot d.CommitteeIndex with
    | .error err => (.error (.wrap err "fetch attester data"), s1)
    | .ok data =>
      (.ok (some (.AttestationData data d)),
        { s1 with attData := GoMap.set s1.attData d.CommitteeIndex data })

/-- Modelled from the spec: the Proposer and BuilderProposer branches.  Per validator
the RANDAO reveal is awaited from AggSigDB, then a block, full or blinded, is
requested with the slot, the reveal and the resolved fee recipient. -/
def Fetcher.proposerBody (f : Fetcher) (slot : Int) (blinded : Bool) (pubkey : PubKey)
    (_d : DutyDefinition) (s : FetchState) : Except Error (Option UnsignedData) × FetchState :=
  match f.awaitAggSigDB ⟨slot, .Proposer⟩ pubkey s with
  | (.error err, s1) => (.error (.wrap err "fetch proposer data"), s1)
  | (.ok (.Signature randao), s1) =>
    if blinded then
      let s2 := s1.call (.BlindedBeaconBlockProposal slot pubkey)
      match f.eth2Cl.BlindedBeaconBlockProposal slot randao (f.feeRecipientFunc pubkey) with
      | .error err => (.error (.wrap err "fetch proposer data"), s2)
      | .ok b => (.ok (some (.VersionedBlindedBeaconBlock b)), s2)
    else
      let s2 := s1.call (.BeaconBlockProposal slot pubkey)
      match f.eth2Cl.BeaconBlockProposal slot randao (f.feeRecipientFunc pubkey) with
      | .error err => (.error (.wrap err "fetch proposer data"), s2)
      | .ok b => (.ok (some (.VersionedBeaconBlock b)), s2)
  | (.ok _, s1) => (.error (.new "invalid randao reveal"), s1)

/-- Modelled from the spec: the error of the Aggregator branch for an aggregate the
provider does not know: a retryable domain error with the text `TestFetchAggregator`
expects. -/
def errAggregateNotFound : Error :=
  .retryable "aggregate attestation not found by root (retryable)"

/-- Modelled from the spec: the Aggregator branch.  Per validator the selection proof
is awaited; a validator whose committee length is not the aggregator marker gets
no entry; for the committee of an aggregator the attestation data is awaited once,
hashed, and the aggregate for the hash requested; "not found" is the retryable
error whose text `TestFetchAggregator` checks. -/
def Fetcher.aggregatorBody (f : Fetcher) (slot : Int) (pubkey : PubKey) (d : DutyDefinition)
    (s : FetchState) : Except Error (Option UnsignedData) × FetchState :=
  match f.awaitAggSigDB ⟨slot, .PrepareAggregator⟩ pubkey s with
  | (.error err, s1) => (.error (.wrap err "fetch aggregator data"), s1)
  | (.ok _, s1) =>
    if d.CommitteeLength ≠ commLenAggregator then (.ok none, s1)
    else
      match GoMap.get? s1.aggregates d.CommitteeIndex with
      | some att => (.ok (some (.AggregatedAttestation att)), s1)
      | none =>
        match f.awaitAttDataFunc with
        | none => (.error (.new "awaitAttData not registered"), s1)
        | some await =>
          let s2 := s1.call (.AwaitAttData slot d.CommitteeIndex)
          match await slot d.CommitteeIndex with
          | .error err => (.error (.wrap err "fetch aggregator data"), s2)
          | .ok attData =>
            let root := f.HashTreeRoot attData
            let s3 := s2.call (.AggregateAttestation slot root)
            match f.eth2Cl.AggregateAttestation slot root with
            | .error err => (.error (.wrap err "fetch aggregator data"), s3)
            | .ok none => (.error errAggregateNotFound, s3)
            | .ok (some att) =>
              (.ok (some (.AggregatedAttestation att)),
                { s3 with aggregates := GoMap.set s3.aggregates d.CommitteeIndex att })

/-- Modelled from the spec: the SyncContribution branch.  Per validator the selection
is awaited; a validator whose proof is not eligible gets no entry; for an
aggregator the sync message is awaited for the beacon block root and the
contribution of its subcommittee requested once; every failure is wrapped with
"fetch contribution data". -/
def Fetcher.contributionBody (f : Fetcher) (slot : Int) (pubkey : PubKey) (_d : DutyDefinition)
    (s : FetchState) : Except Error (Option UnsignedData) × FetchState :=
  match f.awaitAggSigDB ⟨slot, .PrepareSyncContribution⟩ pubkey s with
  | (.error err, s1) => (.error (.wrap err "fetch contribution data"), s1)
  | (.ok (.SyncCommitteeSelection subcommittee proof), s1) =>
    if !f.IsSyncCommAggregator proof then (.ok none, s1)
    else
      match f.awaitAggSigDB ⟨slot, .SyncMessage⟩ pubkey s1 with
      | (.error err, s2) => (.error (.wrap err "fetch contribution data"), s2)
      | (.ok (.SignedSyncMessage root), s2) =>
        match GoMap.get? s2.contributions subcommittee with
        | some c => (.ok (some (.SyncContribution c)), s2)
        | none =>
          let s3 := s2.call (.SyncCommitteeContribution slot subcommittee root)
          match f.eth2Cl.SyncCommitteeContribution slot subcommittee root with
          | .error err => (.error (.wrap err "fetch contribution data"), s3)
          | .ok c =>
            (.ok (some (.SyncContribution c)),
              { s3 with contributions := GoMap.set s3.contributions subcommittee c })
      | (.ok _, s2) =>
        (.error (.wrap (.new "invalid sync committee message") "fetch contribution data"), s2)
  | (.ok _, s1) =>
    (.error (.wrap (.new "invalid sync committee selection") "fetch contribution data"), s1)

/-- Modelled from the spec: the dispatch of `Fetch` by duty type; a type without a
branch fails the fetch. -/
def Fetcher.build (f : Fetcher) (duty : Duty) (defSet : DutyDefinitionSet) :
    Except Error (UnsignedDataSet UnsignedData) × FetchState :=
  match duty.Typ with
  | .Attester => rangeBuild (f.attesterBody duty.Slot) defSet FetchState.init []
  | .Proposer => rangeBuild (f.proposerBody duty.Slot false) defSet FetchState.init []
  | .BuilderProposer => rangeBuild (f.proposerBody duty.Slot true) defSet FetchState.init []
  | .Aggregator => rangeBuild (f.aggregatorBody duty.Slot) defSet FetchState.init []
  | .SyncContribution => rangeBuild (f.contributionBody duty.Slot) defSet FetchState.init []
  | _ => (.error (.new "unsupported duty type"), FetchState.init)

/-- One call of a subscriber: its position in registration order, the arguments it
got and the error it returned. -/
structure Invocation where
  sub : Nat
  duty : Duty
  set : UnsignedDataSet UnsignedData
  ret : Option Error
  deriving DecidableEq, Repr

/-- Modelled from the spec: the subscriber fan-out.  Callbacks run in registration
order from position `i` on; the first error ends the dispatch and is returned as
it is. -/
def dispatch (duty : Duty) (set : UnsignedDataSet UnsignedData) :
    Nat → List Subscriber → List Invocation → Option Error × List Invocation
  | _, [], inv => (none, inv)
  | i, sub :: rest, inv =>
    match sub duty set with
    | some err => (some err, inv ++ [⟨i, duty, set, some err⟩])
    | none => dispatch duty set (i + 1) rest (inv ++ [⟨i, duty, set, none⟩])

/-- What a call of `Fetch` leaves behind: the returned error, the calls made on the
collaborators and the subscriber calls, both in order. -/
structure FetchResult where
  err : Option Error
  calls : List Call
  invoked : List Invocation
  deriving DecidableEq, Repr

/-- Whether a duty type builds entries for aggregating validators only. -/
def DutyType.aggregating : DutyType → Bool
  | .Aggregator => true
  | .SyncContribution => true
  | _ => false

/-- Modelled from the spec: `Fetch(ctx, duty, defSet) error`.  A failed build fails the
fetch before any subscriber runs.  An Aggregator or SyncContribution fetch that
found no aggregator returns without calling the subscribers, as the second `Fetch`
of `TestFetchAggregator` shows (its subscriber returns an error whenever it is
called, and the fetch returns none). -/
def Fetcher.Fetch (f : Fetcher) (duty : Duty) (defSet : DutyDefinitionSet) : FetchResult :=
  match f.build duty defSet with
  | (.error err, s) => { err := some err, calls := s.calls, invoked := [] }
  | (.ok set, s) =>
    if duty.Typ.aggregating && set.isEmpty then { err := none, calls := s.calls, invoked := [] }
    else
      match dispatch duty set 0 f.subs [] with
      | (err, inv) => { err := err, calls := s.calls, invoked := inv }

/-- A provider that answers every lookup, in the way of the beacon mock of the tests. -/
def mockProvider : ConsensusProvider where
  AttestationData slot committee := .ok ⟨slot, committee, 0⟩
  AggregateAttestation slot root := .ok (some ⟨⟨slot, root, 0⟩, 0⟩)
  BeaconBlockProposal slot randao fee := .ok ⟨slot, randao, fee⟩
  BlindedBeaconBlockProposal slot randao fee := .ok ⟨slot, randao, fee⟩
  SyncCommitteeContribution slot subcommittee root := .ok ⟨slot, subcommittee, root⟩

/-- A fetcher over the mock provider with both await functions registered, set up as
in `TestFetchAggregator`; selection proof 1 is the eligible one. -/
def mockFetcher (subs : List Subscriber) : Fetcher where
  eth2Cl := mockProvider
  feeRecipientFunc _ := "0x0000000000000000000000000000000000000000"
  subs := subs
  aggSigDBFunc := some fun duty _ =>
    match duty.Typ with
    | .Proposer => .ok (.Signature 1)
    | .PrepareAggregator => .ok (.BeaconCommitteeSelection 1)
    | .PrepareSyncContribution => .ok (.SyncCommitteeSelection 4 1)
    | .SyncMessage => .ok (.SignedSyncMessage 9)
    | _ => .error (.new "unsupported duty")
  awaitAttDataFunc := some fun slot committee => .ok ⟨slot, committee, 0⟩
  HashTreeRoot data := data.Index
  IsSyncCommAggregator proof := proof == 1

/-- Three subscribers of which the second returns the error `done`, as the subscriber
of `TestFetchAggregator` does. -/
def sampleSubs : List Subscriber :=
  [fun _ _ => none, fun _ _ => some (.new "done"), fun _ _ => none]

/-- A definition set with one attester in committee 7. -/
def sampleDefSet : DutyDefinitionSet := [([65], ⟨1, 2, 7, 99⟩)]

/-- Whether the text `needle` occurs in the text `s`. -/
def containsText (s needle : String) : Prop := needle.data <:+: s.data

instance (s needle : String) : Decidable (containsText s needle) := by
  unfold containsText; infer_instance

/-- Every wait on AggSigDB for the selection proof of a validator of the definition
set succeeds. -/
def Fetcher.selectionWaitsSucceed (f : Fetcher) (slot : Int) (defSet : DutyDefinitionSet) :
    Prop :=
  ∃ db, f.aggSigDBFunc = some db ∧
    ∀ k d, (k, d) ∈ defSet → ∃ sd, db ⟨slot, .PrepareAggregator⟩ k = .ok sd

/-- A provider that knows no aggregate: every aggregate lookup answers "not found",
as the mock of `TestFetchAggregator` does once `nilAggregate` is set. -/
def notFoundProvider : ConsensusProvider :=
  { mockProvider with AggregateAttestation := fun _ _ => .ok none }

/-- The mock fetcher over the provider that knows no aggregate; its subscriber
returns `done` whenever it is called. -/
def notFoundFetcher : Fetcher :=
  { mockFetcher [fun _ _ => some (.new "done")] with eth2Cl := notFoundProvider }

/-- An AggSigDB that fails every wait, as the one of the subtest "fetch contribution
data error" of `TestFetchSyncContribution`. -/
def failingAggSigDB : Duty → PubKey → Except Error SignedData :=
  fun _ _ => .error (.new "error")

/-- The mock fetcher with an AggSigDB that fails every wait. -/
def failingDBFetcher : Fetcher :=
  { mockFetcher [fun _ _ => some (.new "done")] with aggSigDBFunc := some failingAggSigDB }

/-! # Theorems -/

/-! ## Go maps -/

theorem GoMap.get?_set_self {K V : Type} [DecidableEq K] (m : List (K × V)) (k : K) (v : V) :
    GoMap.get? (GoMap.set m k v) k = some v := by
  induction m with
  | nil => simp [GoMap.set, GoMap.get?]
  | cons e m ih =>
    obtain ⟨k0, v0⟩ := e
    by_cases h : k0 = k
    · simp [GoMap.set, GoMap.get?, h]
    · simp [GoMap.set, GoMap.get?, h, ih]

theorem GoMap.get?_set_ne {K V : Type} [DecidableEq K] (m : List (K × V)) (k k1 : K) (v : V)
    (hne : k ≠ k1) : GoMap.get? (GoMap.set m k v) k1 = GoMap.get? m k1 := by
  induction m with
  | nil => simp [GoMap.set, GoMap.get?, hne]
  | cons e m ih =>
    obtain ⟨k0, v0⟩ := e
    by_cases h : k0 = k
    · subst h
      simp [GoMap.set, GoMap.get?, hne]
    · by_cases h1 : k0 = k1
      · subst h1
        simp [GoMap.set, GoMap.get?, h]
      · simp [GoMap.set, GoMap.get?, h, h1, ih]

theorem GoMap.get?_eq_none_iff {K V : Type} [DecidableEq K] (m : List (K × V)) (k : K) :
    GoMap.get? m k = none ↔ k ∉ GoMap.keys m := by
  induction m with
  | nil => simp [GoMap.get?, GoMap.keys]
  | cons e m ih =>
    obtain ⟨k0, v0⟩ := e
    by_cases h : k0 = k
    · simp [GoMap.get?, GoMap.keys, h]
    · have h2 : ¬ k = k0 := fun e => h e.symm
      simp only [GoMap.keys] at ih
      simp [GoMap.get?, GoMap.keys, h, h2, ih]

theorem GoMap.mem_keys_iff {K V : Type} [DecidableEq K] (m : List (K × V)) (k : K) :
    k ∈ GoMap.keys m ↔ ∃ v, GoMap.get? m k = some v := by
  rw [← not_iff_not, ← GoMap.get?_eq_none_iff]
  cases GoMap.get? m k <;> simp

theorem GoMap.keys_set {K V : Type} [DecidableEq K] (m : List (K × V)) (k : K) (v : V) :
    GoMap.keys (GoMap.set m k v) = if k ∈ GoMap.keys m then GoMap.keys m else GoMap.keys m ++ [k] := by
  induction m with
  | nil => simp [GoMap.set, GoMap.keys]
  | cons e m ih =>
    obtain ⟨k0, v0⟩ := e
    simp only [GoMap.keys] at ih
    by_cases h : k0 = k
    · subst h
      simp [GoMap.set, GoMap.keys]
    · have h2 : ¬ k = k0 := fun e => h e.symm
      simp only [GoMap.set, GoMap.keys, h, if_false, List.map_cons, List.mem_cons, h2, false_or, ih]
      split <;> simp

theorem GoMap.WF_set {K V : Type} [DecidableEq K] (m : List (K × V)) (k : K) (v : V)
    (h : GoMap.WF m) : GoMap.WF (GoMap.set m k v) := by
  unfold GoMap.WF at *
  rw [GoMap.keys_set]
  split
  · exact h
  · rename_i hk
    exact List.Nodup.append h (List.nodup_singleton k) (by simpa using hk)

theorem GoMap.get?_of_mem {K V : Type} [DecidableEq K] (m : List (K × V)) (k : K) (v : V)
    (hwf : GoMap.WF m) (hmem : (k, v) ∈ m) : GoMap.get? m k = some v := by
  induction m with
  | nil => simp at hmem
  | cons e m ih =>
    obtain ⟨k0, v0⟩ := e
    simp only [GoMap.WF, GoMap.keys, List.map_cons, List.nodup_cons] at hwf
    rcases List.mem_cons.mp hmem with h | h
    · cases h
      simp [GoMap.get?]
    · have hk : k ∈ m.map Prod.fst := List.mem_map.mpr ⟨(k, v), h, rfl⟩
      have hne : k0 ≠ k := fun e => hwf.1 (e ▸ hk)
      simp only [GoMap.get?, hne, if_false]
      exact ih hwf.2 h

theorem GoMap.mem_of_get? {K V : Type} [DecidableEq K] (m : List (K × V)) (k : K) (v : V)
    (h : GoMap.get? m k = some v) : (k, v) ∈ m := by
  induction m with
  | nil => simp [GoMap.get?] at h
  | cons e m ih =>
    obtain ⟨k0, v0⟩ := e
    by_cases hk : k0 = k
    · simp only [GoMap.get?, hk, if_true, Option.some.injEq] at h
      simp [hk, h]
    · simp only [GoMap.get?, hk, if_false] at h
      exact List.mem_cons_of_mem _ (ih h)

theorem GoMap.mem_keys_set {K V : Type} [DecidableEq K] (m : List (K × V)) (k0 k : K) (v : V) :
    k ∈ GoMap.keys (GoMap.set m k0 v) ↔ k ∈ GoMap.keys m ∨ k = k0 := by
  rw [GoMap.keys_set]
  split
  · rename_i h
    constructor
    · exact Or.inl
    · rintro (h1 | rfl)
      · exact h1
      · exact h
  · simp

/-! ## The codec loop -/

/-- When `f` succeeds on every value of a well-formed source map, the loop succeeds;
the result holds, under every key of the source, what `f` made of its value, and
under every other key what the destination held. -/
theorem rangeSet_ok {K V X : Type} [DecidableEq K] (f : V → Except Error X) (msg : String)
    (src : List (K × V)) (dst : List (K × X)) (hwf : GoMap.WF src) (hdst : GoMap.WF dst)
    (hf : ∀ k v, (k, v) ∈ src → ∃ x, f v = .ok x) :
    ∃ out, rangeSet f msg src dst = .ok out ∧ GoMap.WF out ∧
      ∀ k, (∀ v, GoMap.get? src k = some v → ∃ x, f v = .ok x ∧ GoMap.get? out k = some x) ∧
        (GoMap.get? src k = none → GoMap.get? out k = GoMap.get? dst k) := by
  induction src generalizing dst with
  | nil => exact ⟨dst, rfl, hdst, fun k => ⟨by simp [GoMap.get?], fun _ => rfl⟩⟩
  | cons e src ih =>
    obtain ⟨k0, v0⟩ := e
    obtain ⟨x0, hx0⟩ := hf k0 v0 (List.mem_cons_self _ _)
    have hwf2 := hwf
    simp only [GoMap.WF, GoMap.keys, List.map_cons, List.nodup_cons] at hwf2
    obtain ⟨out, hout, hwfo, hget⟩ := ih (GoMap.set dst k0 x0) hwf2.2 (GoMap.WF_set _ _ _ hdst)
      (fun k v hm => hf k v (List.mem_cons_of_mem _ hm))
    refine ⟨out, by simp [rangeSet, hx0, hout], hwfo, fun k => ?_⟩
    by_cases hk : k0 = k
    · subst hk
      have hnone : GoMap.get? src k0 = none := (GoMap.get?_eq_none_iff _ _).mpr hwf2.1
      constructor
      · intro v hv
        simp only [GoMap.get?, if_true, Option.some.injEq] at hv
        subst hv
        exact ⟨x0, hx0, by rw [(hget k0).2 hnone, GoMap.get?_set_self]⟩
      · intro hv
        simp [GoMap.get?] at hv
    · constructor
      · intro v hv
        simp only [GoMap.get?, hk, if_false] at hv
        exact (hget k).1 v hv
      · intro hv
        simp only [GoMap.get?, hk, if_false] at hv
        rw [(hget k).2 hv, GoMap.get?_set_ne _ _ _ _ hk]

/-- The loop fails as soon as `f` fails on the first value it visits. -/
theorem rangeSet_error_of_head {K V X : Type} [DecidableEq K] (f : V → Except Error X)
    (msg : String) (k : K) (v : V) (rest : List (K × V)) (dst : List (K × X)) (e : Error)
    (h : f v = .error e) : rangeSet f msg ((k, v) :: rest) dst = .error (.wrap e msg) := by
  simp [rangeSet, h]

/-! ## The wire message -/

theorem mem_insertMember (e x : PubKey × RawMessage) (l : List (PubKey × RawMessage)) :
    x ∈ insertMember e l ↔ x = e ∨ x ∈ l := by
  induction l with
  | nil => simp [insertMember]
  | cons e0 rest ih =>
    unfold insertMember
    split
    · simp
    · simp only [List.mem_cons, ih]
      tauto

theorem mem_sortMembers (x : PubKey × RawMessage) (l : List (PubKey × RawMessage)) :
    x ∈ sortMembers l ↔ x ∈ l := by
  induction l with
  | nil => simp [sortMembers]
  | cons e rest ih =>
    have h : sortMembers (e :: rest) = insertMember e (sortMembers rest) := rfl
    rw [h, mem_insertMember, ih]
    simp

theorem writeMembers_none (tx : JSONText) (l : List (PubKey × RawMessage))
    (h : ∃ k v, (k, v) ∈ l ∧ tx.compact v = none) : writeMembers tx l = none := by
  induction l with
  | nil =>
    obtain ⟨k, v, hm, _⟩ := h
    simp at hm
  | cons e rest ih =>
    obtain ⟨k0, v0⟩ := e
    obtain ⟨k, v, hm, hv⟩ := h
    unfold writeMembers
    rcases List.mem_cons.mp hm with heq | hm
    · cases heq
      rw [hv]
    · rw [ih ⟨k, v, hm, hv⟩]
      cases tx.compact v0 <;> rfl

theorem writeMembers_some (tx : JSONText) (l : List (PubKey × RawMessage))
    (h : ∀ k v, (k, v) ∈ l → ∃ c, tx.compact v = some c) :
    ∃ out, writeMembers tx l = some out ∧
      ∀ k2 v2, (k2, v2) ∈ out ↔
        ∃ k v, (k, v) ∈ l ∧ tx.key k = k2 ∧ tx.compact v = some v2 := by
  induction l with
  | nil => exact ⟨[], rfl, by simp⟩
  | cons e rest ih =>
    obtain ⟨k0, v0⟩ := e
    obtain ⟨c0, hc0⟩ := h k0 v0 (List.mem_cons_self _ _)
    obtain ⟨out, hout, hmem⟩ := ih (fun k v hm => h k v (List.mem_cons_of_mem _ hm))
    refine ⟨(tx.key k0, c0) :: out, by simp [writeMembers, hc0, hout], fun k2 v2 => ?_⟩
    simp only [List.mem_cons, Prod.mk.injEq, hmem]
    constructor
    · rintro (⟨rfl, rfl⟩ | ⟨k, v, hm, hk, hv⟩)
      · exact ⟨k0, v0, Or.inl ⟨rfl, rfl⟩, rfl, hc0⟩
      · exact ⟨k, v, Or.inr hm, hk, hv⟩
    · rintro ⟨k, v, (⟨rfl, rfl⟩ | hm), hk, hv⟩
      · rw [hc0] at hv
        cases hv
        exact Or.inl ⟨hk.symm, rfl⟩
      · exact Or.inr ⟨k, v, hm, hk, hv⟩

theorem readMembers_spec (l : List (PubKey × RawMessage)) :
    ∀ m : List (PubKey × RawMessage), GoMap.WF m →
      GoMap.WF (readMembers l m) ∧
        (∀ k, k ∈ GoMap.keys m ∨ k ∈ GoMap.keys l → k ∈ GoMap.keys (readMembers l m)) ∧
        (∀ k v, GoMap.get? (readMembers l m) k = some v →
          (k, v) ∈ l ∨ GoMap.get? m k = some v) := by
  induction l with
  | nil =>
    intro m hwf
    refine ⟨hwf, fun k hk => ?_, fun k v h => Or.inr h⟩
    rcases hk with hk | hk
    · exact hk
    · simp [GoMap.keys] at hk
  | cons e rest ih =>
    obtain ⟨k0, v0⟩ := e
    intro m hwf
    obtain ⟨h1, h2, h3⟩ := ih (GoMap.set m k0 v0) (GoMap.WF_set _ _ _ hwf)
    refine ⟨h1, fun k hk => h2 k ?_, fun k v h => ?_⟩
    · rw [GoMap.mem_keys_set]
      rcases hk with hk | hk
      · exact Or.inl (Or.inl hk)
      · simp only [GoMap.keys, List.map_cons, List.mem_cons] at hk
        rcases hk with hk | hk
        · exact Or.inl (Or.inr hk)
        · exact Or.inr hk
    · rcases h3 k v h with h4 | h4
      · exact Or.inl (List.mem_cons_of_mem _ h4)
      · by_cases hk : k0 = k
        · subst hk
          rw [GoMap.get?_set_self] at h4
          cases h4
          exact Or.inl (List.mem_cons_self _ _)
        · rw [GoMap.get?_set_ne _ _ _ _ hk] at h4
          exact Or.inr h4

/-- The model `goJSON` of the library keeps what `encoding/json` guarantees. -/
theorem goJSON_sound (tx : JSONText) : (goJSON tx).Sound tx := by
  intro doc _
  constructor
  · rintro ⟨k, v, hm, hv⟩
    have hnone := writeMembers_none tx (sortMembers doc.Data)
      ⟨k, v, (mem_sortMembers _ _).mpr hm, hv⟩
    exact ⟨.new "json: error calling MarshalJSON for type json.RawMessage",
      by simp [goJSON, hnone]⟩
  · intro hvalid
    obtain ⟨out, hout, hmem⟩ := writeMembers_some tx (sortMembers doc.Data)
      (fun k v hm => hvalid k v ((mem_sortMembers _ _).mp hm))
    obtain ⟨h1, h2, h3⟩ := readMembers_spec out [] List.nodup_nil
    refine ⟨{ doc with Data := out }, { doc with Data := readMembers out [] },
      by simp [goJSON, hout], rfl, rfl, rfl, rfl, h1, fun k v hm => ?_, fun k2 v2 hg => ?_⟩
    · obtain ⟨c, hc⟩ := hvalid k v hm
      have hin : (tx.key k, c) ∈ out :=
        (hmem _ _).mpr ⟨k, v, (mem_sortMembers _ _).mpr hm, rfl, hc⟩
      exact h2 _ (Or.inr (List.mem_map.mpr ⟨_, hin, rfl⟩))
    · rcases h3 k2 v2 hg with h4 | h4
      · obtain ⟨k, v, hm, hk, hv⟩ := (hmem _ _).mp h4
        exact ⟨k, v, (mem_sortMembers _ _).mp hm, hk, hv⟩
      · simp [GoMap.get?] at h4

/-- C1, as stated, fails: the two public keys FF and FE are not valid UTF-8, and
`encoding/json` writes both as the replacement character.  The message holds a JSON
number under each of them, every value marshals, and `core.UnmarshalUnsignedData`
inverts the marshalling; `MarshalJSON` and `UnmarshalJSON` succeed, and the data set
that comes back holds one entry, under the key EF BF BD, which is neither of the
two keys. -/
theorem p2pMsg_wire_round_trip_merges_keys :
    GoMap.WF ([([0xFE], SampleData.att 51), ([0xFF], .att 52)] : UnsignedDataSet SampleData) ∧
      (∀ k v, (k, v) ∈ ([([0xFE], SampleData.att 51), ([0xFF], .att 52)] :
          UnsignedDataSet SampleData) →
        ∃ b, sampleCore.MarshalJSON v = .ok b ∧
          sampleCore.UnmarshalUnsignedData .Attester b = .ok v) ∧
      p2pMsg.MarshalJSON (goJSON sampleText) sampleCore
          ⟨7, 1, ⟨5, .Attester⟩, [([0xFE], .att 51), ([0xFF], .att 52)]⟩ =
        .ok ⟨7, 1, ⟨5, .Attester⟩, [([0xEF, 0xBF, 0xBD], [51]), ([0xEF, 0xBF, 0xBD], [52])]⟩ ∧
      p2pMsg.UnmarshalJSON (goJSON sampleText) sampleCore
          ⟨7, 1, ⟨5, .Attester⟩, [([0xEF, 0xBF, 0xBD], [51]), ([0xEF, 0xBF, 0xBD], [52])]⟩ =
        .ok ⟨7, 1, ⟨5, .Attester⟩, [([0xEF, 0xBF, 0xBD], SampleData.att 52)]⟩ ∧
      GoMap.keys ([([0xEF, 0xBF, 0xBD], SampleData.att 52)] : UnsignedDataSet SampleData) ≠
        GoMap.keys ([([0xFE], SampleData.att 51), ([0xFF], .att 52)] :
          UnsignedDataSet SampleData) := by
  refine ⟨by decide, ?_, rfl, rfl, by decide⟩
  intro k v h
  simp only [List.mem_cons, Prod.mk.injEq, List.mem_nil_iff, or_false] at h
  rcases h with ⟨_, rfl⟩ | ⟨_, rfl⟩ <;> exact ⟨_, rfl, rfl⟩

/-- C1, amended: wire round trip.  For every message with a well-formed data set whose
public keys `encoding/json` reads back unchanged, as it does every key that is valid
UTF-8, and in which every unsigned data value marshals to a valid JSON text whose
compaction `core.UnmarshalUnsignedData` under the duty type of the message decodes
to the value, `MarshalJSON` succeeds and `UnmarshalJSON` of its output succeeds with
the same `Idx`, `FromIdx` and `Duty` and a data set that holds the same value under
every public key. -/
theorem p2pMsg_wire_round_trip {U W : Type} (lib : JSONLib W) (tx : JSONText)
    (core : CoreLib U) (m : p2pMsg U) (hlib : lib.Sound tx) (hwf : GoMap.WF m.Data)
    (hkeys : ∀ k v, (k, v) ∈ m.Data → tx.key k = k)
    (hcore : ∀ k v, (k, v) ∈ m.Data →
      ∃ b c, core.MarshalJSON v = .ok b ∧ tx.compact b = some c ∧
        core.UnmarshalUnsignedData m.Duty.Typ c = .ok v) :
    ∃ w m2, p2pMsg.MarshalJSON lib core m = .ok w ∧
      p2pMsg.UnmarshalJSON lib core w = .ok m2 ∧
      m2.Idx = m.Idx ∧ m2.FromIdx = m.FromIdx ∧ m2.Duty = m.Duty ∧ GoMap.WF m2.Data ∧
      ∀ k, GoMap.get? m2.Data k = GoMap.get? m.Data k := by
  have hnil : ∀ (X : Type), GoMap.WF ([] : List (PubKey × X)) := fun _ => List.nodup_nil
  obtain ⟨data, hdata, hwfd, hgetd⟩ := rangeSet_ok core.MarshalJSON "marshal unsigned data"
    m.Data [] hwf (hnil _) (fun k v hm => by
      obtain ⟨b, _, hb, _⟩ := hcore k v hm
      exact ⟨b, hb⟩)
  -- every raw entry of the built document is the marshalling of the value under its key
  have hraw : ∀ k b, (k, b) ∈ data →
      ∃ v, (k, v) ∈ m.Data ∧ core.MarshalJSON v = .ok b := by
    intro k b hb
    have hgb := GoMap.get?_of_mem _ _ _ hwfd hb
    cases hv : GoMap.get? m.Data k with
    | none =>
      rw [(hgetd k).2 hv] at hgb
      simp [GoMap.get?] at hgb
    | some v =>
      obtain ⟨x, hx, hgx⟩ := (hgetd k).1 v hv
      rw [hgx] at hgb
      cases hgb
      exact ⟨v, GoMap.mem_of_get? _ _ _ hv, hx⟩
  obtain ⟨w, doc2, hM, hU, hI, hF, hD, hwf2, hkeys2, hget2⟩ :=
    (hlib { Idx := m.Idx, FromIdx := m.FromIdx, Duty := m.Duty, Data := data } hwfd).2
      (fun k b hb => by
        obtain ⟨v, hv, hx⟩ := hraw k b hb
        obtain ⟨b1, c, hb1, hc, _⟩ := hcore k v hv
        rw [hx] at hb1
        cases hb1
        exact ⟨c, hc⟩)
  simp only at hI hF hD hkeys2 hget2
  -- every raw entry that comes back decodes to the value the message holds under its key
  have hkey : ∀ k c, GoMap.get? doc2.Data k = some c →
      ∃ v, GoMap.get? m.Data k = some v ∧ core.UnmarshalUnsignedData m.Duty.Typ c = .ok v := by
    intro k c hc
    obtain ⟨k1, b, hb, hk1, hcb⟩ := hget2 k c hc
    obtain ⟨v, hv, hx⟩ := hraw k1 b hb
    obtain ⟨b1, c1, hb1, hc1, hu⟩ := hcore k1 v hv
    rw [hx] at hb1
    cases hb1
    rw [hcb] at hc1
    cases hc1
    rw [hkeys k1 v hv] at hk1
    subst hk1
    exact ⟨v, GoMap.get?_of_mem _ _ _ hwf hv, hu⟩
  obtain ⟨set, hset, hwfs, hgets⟩ := rangeSet_ok (core.UnmarshalUnsignedData doc2.Duty.Typ)
    "marshal unsigned data" doc2.Data [] hwf2 (hnil _) (fun k b hm => by
      obtain ⟨v, _, hv⟩ := hkey k b (GoMap.get?_of_mem _ _ _ hwf2 hm)
      exact ⟨v, by rw [hD]; exact hv⟩)
  refine ⟨w, { Idx := doc2.Idx, FromIdx := doc2.FromIdx, Duty := doc2.Duty, Data := set },
    by simp [p2pMsg.MarshalJSON, hdata, hM], by simp [p2pMsg.UnmarshalJSON, hU, hset],
    hI, hF, hD, hwfs, fun k => ?_⟩
  show GoMap.get? set k = GoMap.get? m.Data k
  cases hb : GoMap.get? doc2.Data k with
  | none =>
    rw [(hgets k).2 hb]
    cases hv : GoMap.get? m.Data k with
    | none => simp [GoMap.get?]
    | some v =>
      obtain ⟨x, _, hgx⟩ := (hgetd k).1 v hv
      have hin := hkeys2 k x (GoMap.mem_of_get? _ _ _ hgx)
      rw [hkeys k v (GoMap.mem_of_get? _ _ _ hv)] at hin
      exact absurd hb (by
        rw [GoMap.get?_eq_none_iff]
        exact fun hnot => hnot hin)
  | some b =>
    obtain ⟨v, hv, hu⟩ := hkey k b hb
    obtain ⟨x, hx, hgx⟩ := (hgets k).1 b hb
    rw [hD, hu] at hx
    cases hx
    rw [hgx, hv]

/-- The amended C1 at a message with two attester payloads under the keys `a` and `b`. -/
theorem p2pMsg_wire_round_trip_witness :
    (goJSON sampleText).Sound sampleText ∧
      GoMap.WF ([([97], SampleData.att 51), ([98], .att 52)] : UnsignedDataSet SampleData) ∧
      jsonKey [97] = [97] ∧ jsonKey [98] = [98] ∧
      ∃ w m2, p2pMsg.MarshalJSON (goJSON sampleText) sampleCore
        ⟨7, 1, ⟨5, .Attester⟩, [([97], .att 51), ([98], .att 52)]⟩ = .ok w ∧
      p2pMsg.UnmarshalJSON (goJSON sampleText) sampleCore w = .ok m2 ∧
      m2.Idx = 7 ∧ m2.FromIdx = 1 ∧ m2.Duty = ⟨5, .Attester⟩ ∧ GoMap.WF m2.Data ∧
      ∀ k, GoMap.get? m2.Data k =
        GoMap.get? ([([97], SampleData.att 51), ([98], .att 52)] :
          UnsignedDataSet SampleData) k :=
  ⟨goJSON_sound sampleText, by decide, by decide, by decide,
    p2pMsg_wire_round_trip (goJSON sampleText) sampleText sampleCore
      ⟨7, 1, ⟨5, .Attester⟩, [([97], .att 51), ([98], .att 52)]⟩ (goJSON_sound sampleText)
      (by decide)
      (by
        intro k v h
        simp only [List.mem_cons, Prod.mk.injEq, List.mem_nil_iff, or_false] at h
        rcases h with ⟨rfl, _⟩ | ⟨rfl, _⟩ <;> decide)
      (by
        intro k v h
        simp only [List.mem_cons, Prod.mk.injEq, List.mem_nil_iff, or_false] at h
        rcases h with ⟨_, rfl⟩ | ⟨_, rfl⟩ <;> exact ⟨_, _, rfl, rfl, rfl⟩)⟩

/-- C2, as stated, fails: under the tag `other 99`, which the dispatch of `sampleCore`
rejects for every payload, a document with an empty data mapping decodes. -/
theorem unmarshal_unrecognized_tag_empty_data_ok :
    (¬ sampleCore.Recognized (.other 99)) ∧
      p2pMsg.UnmarshalJSON docJSON sampleCore
        ({ Idx := 0, FromIdx := 2, Duty := ⟨3, .other 99⟩, Data := [] } : p2pMsgJSON) =
        .ok { Idx := 0, FromIdx := 2, Duty := ⟨3, .other 99⟩, Data := [] } := by
  refine ⟨?_, rfl⟩
  rintro ⟨b, u, h⟩
  simp [sampleCore] at h

/-- C2, amended: for every wire input that decodes to a document whose duty type tag is
not recognised, `UnmarshalJSON` fails when the data mapping has at least one entry,
and succeeds with an empty data set when the mapping is empty. -/
theorem unmarshal_unrecognized_tag {U W : Type} (lib : JSONLib W) (core : CoreLib U)
    (input : W) (doc : p2pMsgJSON) (hdoc : lib.Unmarshal input = .ok doc)
    (htag : ¬ core.Recognized doc.Duty.Typ) :
    (doc.Data ≠ [] → ∃ e, p2pMsg.UnmarshalJSON lib core input = .error e) ∧
      (doc.Data = [] → p2pMsg.UnmarshalJSON lib core input =
        .ok { Idx := doc.Idx, FromIdx := doc.FromIdx, Duty := doc.Duty, Data := [] }) := by
  constructor
  · intro hne
    obtain ⟨⟨k, v⟩, rest, hcons⟩ := List.exists_cons_of_ne_nil hne
    cases hf : core.UnmarshalUnsignedData doc.Duty.Typ v with
    | ok u => exact absurd ⟨v, u, hf⟩ htag
    | error e =>
      refine ⟨.wrap e "marshal unsigned data", ?_⟩
      simp [p2pMsg.UnmarshalJSON, hdoc, hcons, rangeSet, hf]
  · intro he
    simp [p2pMsg.UnmarshalJSON, hdoc, he, rangeSet]

/-- The amended C2 at a document with one entry under the tag `other 99`. -/
theorem unmarshal_unrecognized_tag_witness :
    (∃ e, p2pMsg.UnmarshalJSON docJSON sampleCore
        ({ Idx := 0, FromIdx := 2, Duty := ⟨3, .other 99⟩, Data := [([97], [1])] } : p2pMsgJSON) =
        (.error e : Except Error (p2pMsg SampleData))) :=
  (unmarshal_unrecognized_tag docJSON sampleCore
    ({ Idx := 0, FromIdx := 2, Duty := ⟨3, .other 99⟩, Data := [([97], [1])] } : p2pMsgJSON)
    { Idx := 0, FromIdx := 2, Duty := ⟨3, .other 99⟩, Data := [([97], [1])] } rfl
    (by rintro ⟨b, u, h⟩; simp [sampleCore] at h)).1 (by simp)

/-! ## Broadcast of the peer-to-peer transport -/

theorem sendData_attempts {W : Type} (net : Net W) (p : PeerID) (b : W) :
    (sendData net p b).2.attempts = net.attempts ++ [p] := by
  unfold sendData
  generalize net.script.headD ⟨none, none, none⟩ = sc
  obtain ⟨o, w, c⟩ := sc
  cases o <;> cases w <;> cases c <;>
    simp [Net.attempts, List.filterMap_append]

/-- The peers from position `idx` on that are not at the self index. -/
theorem broadcastLoop_attempts {W : Type} (peerIDx : Int) (b : W) (ps : List PeerID) :
    ∀ (idx : Nat) (net : Net W) (errs : List Error),
      (broadcastLoop peerIDx b idx ps net errs).1.attempts =
        net.attempts ++
          (if (idx : Int) ≤ peerIDx then ps.eraseIdx (peerIDx - idx).toNat else ps) := by
  induction ps with
  | nil => intro idx net errs; simp [broadcastLoop]
  | cons p ps ih =>
    intro idx net errs
    unfold broadcastLoop
    by_cases hself : (idx : Int) = peerIDx
    · have h1 : ¬ ((idx + 1 : Nat) : Int) ≤ peerIDx := by omega
      have h2 : (idx : Int) ≤ peerIDx := by omega
      have h3 : (peerIDx - (idx : Int)).toNat = 0 := by omega
      rw [if_pos hself, ih, if_neg h1, if_pos h2, h3]
      rfl
    · rw [if_neg hself]
      have hstep : ∀ (net1 : Net W) (errs1 : List Error), net1.attempts = net.attempts ++ [p] →
          (broadcastLoop peerIDx b (idx + 1) ps net1 errs1).1.attempts =
            net.attempts ++ (if (idx : Int) ≤ peerIDx
              then (p :: ps).eraseIdx (peerIDx - idx).toNat else p :: ps) := by
        intro net1 errs1 hn
        rw [ih, hn]
        by_cases hle : (idx : Int) ≤ peerIDx
        · have h1 : ((idx + 1 : Nat) : Int) ≤ peerIDx := by omega
          have h3 : (peerIDx - (idx : Int)).toNat = (peerIDx - ((idx + 1 : Nat) : Int)).toNat + 1 := by
            omega
          rw [if_pos h1, if_pos hle, h3]
          simp [List.eraseIdx]
        · have h1 : ¬ ((idx + 1 : Nat) : Int) ≤ peerIDx := by omega
          rw [if_neg h1, if_neg hle]
          simp
      have ha := sendData_attempts net p b
      rcases hsd : sendData net p b with ⟨_ | err, net1⟩
      · rw [hsd] at ha
        exact hstep net1 errs ha
      · rw [hsd] at ha
        exact hstep net1 _ ha

/-- C3: `Broadcast` never fails on partial delivery.  When the message serializes, the
call returns no error for every peer list, self index and network script, that is
for every pattern of failures at stream open, write and close. -/
theorem Broadcast_never_fails_on_delivery {U W : Type} (lib : JSONLib W) (core : CoreLib U)
    (t : p2pTransport U) (net : Net W) (fromIdx : Int) (d : Duty) (data : UnsignedDataSet U)
    (b : W)
    (hser : p2pMsg.MarshalJSON lib core
      { Idx := 0, FromIdx := fromIdx, Duty := d, Data := data } = .ok b) :
    (t.Broadcast lib core net fromIdx d data).err = none := by
  unfold p2pTransport.Broadcast
  rw [hser]
  dsimp only
  generalize broadcastLoop t.peerIDx b 0 t.peers net [] = r
  obtain ⟨net1, _ | ⟨e, errs⟩⟩ := r <;> rfl

/-- C3 at three peers whose streams fail at open, at write and at close. -/
theorem Broadcast_never_fails_on_delivery_witness :
    (({ peerIDx := 3, peers := ["a", "b", "c"], ch := [] } : p2pTransport SampleData).Broadcast
      docJSON sampleCore
      { script := [⟨some (.new "open"), none, none⟩, ⟨none, some (.new "write"), none⟩,
          ⟨none, none, some (.new "close")⟩], trace := [] }
      0 ⟨5, .Attester⟩ [([107], .att 1)]).err = none :=
  Broadcast_never_fails_on_delivery docJSON sampleCore _ _ 0 ⟨5, .Attester⟩ [([107], .att 1)]
    { Idx := 0, FromIdx := 0, Duty := ⟨5, .Attester⟩, Data := [([107], [1])] } rfl

theorem sendData_trace {W : Type} (net : Net W) (p : PeerID) (b : W) :
    (sendData net p b).2.trace =
        net.trace ++ sendEvents (net.script.headD ⟨none, none, none⟩) p b ∧
      (sendData net p b).2.script = net.script.tail := by
  unfold sendData
  generalize net.script.headD ⟨none, none, none⟩ = sc
  obtain ⟨o, w, c⟩ := sc
  cases o <;> cases w <;> cases c <;> simp [sendEvents]

theorem broadcastLoop_trace {W : Type} (peerIDx : Int) (b : W) (ps : List PeerID) :
    ∀ (idx : Nat) (net : Net W) (errs : List Error),
      (broadcastLoop peerIDx b idx ps net errs).1.trace =
        net.trace ++ sendsTrace b
          (if (idx : Int) ≤ peerIDx then ps.eraseIdx (peerIDx - idx).toNat else ps)
          net.script := by
  induction ps with
  | nil => intro idx net errs; simp [broadcastLoop, sendsTrace]
  | cons p ps ih =>
    intro idx net errs
    unfold broadcastLoop
    by_cases hself : (idx : Int) = peerIDx
    · have h1 : ¬ ((idx + 1 : Nat) : Int) ≤ peerIDx := by omega
      have h2 : (idx : Int) ≤ peerIDx := by omega
      have h3 : (peerIDx - (idx : Int)).toNat = 0 := by omega
      rw [if_pos hself, ih, if_neg h1, if_pos h2, h3]
      rfl
    · rw [if_neg hself]
      have hstep : ∀ (net1 : Net W) (errs1 : List Error),
          net1.trace = net.trace ++ sendEvents (net.script.headD ⟨none, none, none⟩) p b →
          net1.script = net.script.tail →
          (broadcastLoop peerIDx b (idx + 1) ps net1 errs1).1.trace =
            net.trace ++ sendsTrace b (if (idx : Int) ≤ peerIDx
              then (p :: ps).eraseIdx (peerIDx - idx).toNat else p :: ps) net.script := by
        intro net1 errs1 hn hs
        rw [ih, hn, hs]
        by_cases hle : (idx : Int) ≤ peerIDx
        · have h1 : ((idx + 1 : Nat) : Int) ≤ peerIDx := by omega
          have h3 : (peerIDx - (idx : Int)).toNat = (peerIDx - ((idx + 1 : Nat) : Int)).toNat + 1 := by
            omega
          rw [if_pos h1, if_pos hle, h3]
          simp [List.eraseIdx, sendsTrace]
        · have h1 : ¬ ((idx + 1 : Nat) : Int) ≤ peerIDx := by omega
          rw [if_neg h1, if_neg hle]
          simp [sendsTrace]
      have ha := sendData_trace net p b
      rcases hsd : sendData net p b with ⟨_ | err, net1⟩
      · rw [hsd] at ha
        exact hstep net1 errs ha.1 ha.2
      · rw [hsd] at ha
        exact hstep net1 _ ha.1 ha.2

theorem sendsTrace_writes {W : Type} (b : W) (ps : List PeerID) :
    ∀ script : List StreamScript,
      (sendsTrace b ps script).filterMap (fun
        | .Write p w => some (p, w)
        | _ => none) = (openedPeers ps script).map (fun p => (p, b)) := by
  induction ps with
  | nil => intro script; rfl
  | cons p ps ih =>
    intro script
    simp only [sendsTrace, openedPeers, List.filterMap_append, ih]
    generalize script.headD ⟨none, none, none⟩ = sc
    obtain ⟨o, w, c⟩ := sc
    cases o <;> cases w <;> simp [sendEvents]

/-- C4: `Broadcast` sends to all other peers and never to itself.  When the message
serializes to `b`, the stream operations of the call are exactly those of one send of
`b` to each peer of the peer list with the entry at the self index removed, in the
order of the list and whatever the network answers to each of them: for each such
peer a stream is requested, once it is open `b` is written to it, and once `b` is
written it is closed.  So the streams requested are those peers, one per peer, and
the writes are `b` to each of them whose stream opened. -/
theorem Broadcast_attempts_other_peers {U W : Type} (lib : JSONLib W) (core : CoreLib U)
    (t : p2pTransport U) (net : Net W) (fromIdx : Int) (d : Duty) (data : UnsignedDataSet U)
    (b : W)
    (hser : p2pMsg.MarshalJSON lib core
      { Idx := 0, FromIdx := fromIdx, Duty := d, Data := data } = .ok b) :
    (t.Broadcast lib core net fromIdx d data).net.trace =
        net.trace ++ sendsTrace b (otherPeers t.peerIDx t.peers) net.script ∧
      (t.Broadcast lib core net fromIdx d data).net.attempts =
        net.attempts ++ otherPeers t.peerIDx t.peers ∧
      (t.Broadcast lib core net fromIdx d data).net.writes =
        net.writes ++ (openedPeers (otherPeers t.peerIDx t.peers) net.script).map
          (fun p => (p, b)) := by
  have hnet : (t.Broadcast lib core net fromIdx d data).net =
      (broadcastLoop t.peerIDx b 0 t.peers net []).1 := by
    unfold p2pTransport.Broadcast
    rw [hser]
    dsimp only
    generalize broadcastLoop t.peerIDx b 0 t.peers net [] = r
    obtain ⟨net1, _ | ⟨e, errs⟩⟩ := r <;> rfl
  have htrace : (broadcastLoop t.peerIDx b 0 t.peers net []).1.trace =
      net.trace ++ sendsTrace b (otherPeers t.peerIDx t.peers) net.script := by
    rw [broadcastLoop_trace]
    simp [otherPeers]
  rw [hnet]
  refine ⟨htrace, ?_, ?_⟩
  · rw [broadcastLoop_attempts]
    simp [otherPeers]
  · unfold Net.writes
    rw [htrace, List.filterMap_append, sendsTrace_writes]

/-- C4 at three peers, self index 1, where the stream to the first peer fails to
open: both other peers are tried, the second one is written the message and closed,
and nothing goes to the peer at the self index. -/
theorem Broadcast_attempts_other_peers_witness :
    (({ peerIDx := 1, peers := ["a", "b", "c"], ch := [] } : p2pTransport SampleData).Broadcast
        docJSON sampleCore { script := [⟨some (.new "open"), none, none⟩], trace := [] }
        0 ⟨5, .Attester⟩ [([107], .att 1)]).net.trace =
        [] ++ [.NewStream "a", .NewStream "c",
          .Write "c" { Idx := 0, FromIdx := 0, Duty := ⟨5, .Attester⟩, Data := [([107], [1])] },
          .Close "c"] ∧
      (({ peerIDx := 1, peers := ["a", "b", "c"], ch := [] } : p2pTransport SampleData).Broadcast
        docJSON sampleCore { script := [⟨some (.new "open"), none, none⟩], trace := [] }
        0 ⟨5, .Attester⟩ [([107], .att 1)]).net.attempts = [] ++ ["a", "c"] ∧
      (({ peerIDx := 1, peers := ["a", "b", "c"], ch := [] } : p2pTransport SampleData).Broadcast
        docJSON sampleCore { script := [⟨some (.new "open"), none, none⟩], trace := [] }
        0 ⟨5, .Attester⟩ [([107], .att 1)]).net.writes =
        [] ++ [("c",
          ({ Idx := 0, FromIdx := 0, Duty := ⟨5, .Attester⟩, Data := [([107], [1])] } :
            p2pMsgJSON))] :=
  Broadcast_attempts_other_peers docJSON sampleCore
    { peerIDx := 1, peers := ["a", "b", "c"], ch := [] }
    { script := [⟨some (.new "open"), none, none⟩], trace := [] }
    0 ⟨5, .Attester⟩ [([107], .att 1)]
    { Idx := 0, FromIdx := 0, Duty := ⟨5, .Attester⟩, Data := [([107], [1])] } rfl

/-! ## The inbound handler -/

/-- C8: the inbound handler delivers at most once per stream.  For every stream, the
mailbox after `handle` is the mailbox before with the decoded message appended
when decoding succeeds and the mailbox accepts it before the deadline, and is the
mailbox before in every other case; so at most one message is added and the
messages that were there stay in place, and nothing else of the transport changes. -/
theorem handle_enqueues_at_most_once {U W : Type} (lib : JSONLib W) (core : CoreLib U)
    (t : p2pTransport U) (s : Except Error W) (accepted : Bool) :
    (t.handle lib core s accepted).1.ch =
        (match decodeStream lib core s, accepted with
          | .ok msg, true => t.ch ++ [msg]
          | _, _ => t.ch) ∧
      (∃ added, (t.handle lib core s accepted).1.ch = t.ch ++ added ∧ added.length ≤ 1) ∧
      (t.handle lib core s accepted).1.peers = t.peers ∧
      (t.handle lib core s accepted).1.peerIDx = t.peerIDx := by
  unfold p2pTransport.handle
  cases hd : decodeStream lib core s with
  | error e => exact ⟨rfl, ⟨[], by simp, by simp⟩, rfl, rfl⟩
  | ok msg =>
    cases accepted with
    | true => exact ⟨rfl, ⟨[msg], by simp, by simp⟩, rfl, rfl⟩
    | false => exact ⟨rfl, ⟨[], by simp, by simp⟩, rfl, rfl⟩

/-! ## The in-memory hub -/

theorem GoMap.set_of_not_mem {K V : Type} [DecidableEq K] (m : List (K × V)) (k : K) (v : V)
    (h : k ∉ GoMap.keys m) : GoMap.set m k v = m ++ [(k, v)] := by
  induction m with
  | nil => rfl
  | cons e m ih =>
    obtain ⟨k0, v0⟩ := e
    simp only [GoMap.keys, List.map_cons, List.mem_cons, not_or] at h
    have hne : ¬ k0 = k := fun e => h.1 e.symm
    simp only [GoMap.set, hne, if_false, List.cons_append]
    rw [ih h.2]

theorem keys_fanOut {U : Type} (msg : p2pMsg U) (outs : List (Int × List (p2pMsg U))) :
    GoMap.keys (fanOut msg outs) = GoMap.keys outs := by
  induction outs with
  | nil => rfl
  | cons e outs ih =>
    obtain ⟨k0, ch0⟩ := e
    simp only [GoMap.keys] at ih
    by_cases h : msg.Idx = k0 <;> simp [fanOut, GoMap.keys, h, ih]

/-- The fan-out appends the message to every mailbox but the one of the sender. -/
theorem get?_fanOut {U : Type} (msg : p2pMsg U) (outs : List (Int × List (p2pMsg U))) (j : Int) :
    GoMap.get? (fanOut msg outs) j =
      (GoMap.get? outs j).map fun ch => if msg.Idx = j then ch else ch ++ [msg] := by
  induction outs with
  | nil => rfl
  | cons e outs ih =>
    obtain ⟨k0, ch0⟩ := e
    by_cases h : msg.Idx = k0
    · by_cases hj : k0 = j
      · subst hj
        simp [fanOut, GoMap.get?, h]
      · simp [fanOut, GoMap.get?, h, hj, ih]
    · by_cases hj : k0 = j
      · subst hj
        simp [fanOut, GoMap.get?, h]
      · simp [fanOut, GoMap.get?, h, hj, ih]

/-- After `n` more registrations on a hub whose registry holds the handles below its
counter `a`, the registry holds the handles below `a + n`. -/
theorem registerN_outputs {U : Type} (n : Nat) :
    ∀ (a : Nat) (h : MemHub U), h.index = a →
      h.outputs = (List.range a).map (fun k : Nat => ((k : Int), ([] : List (p2pMsg U)))) →
      (MemHub.registerN n h).index = ((a + n : Nat) : Int) ∧
        (MemHub.registerN n h).outputs =
          (List.range (a + n)).map (fun k : Nat => ((k : Int), ([] : List (p2pMsg U)))) ∧
        (MemHub.registerN n h).input = h.input := by
  induction n with
  | zero => intro a h hi ho; exact ⟨by simpa using hi, by simpa using ho, rfl⟩
  | succ n ih =>
    intro a h hi ho
    have hnot : (a : Int) ∉ GoMap.keys h.outputs := by
      rw [ho]
      simp [GoMap.keys]
    have h1 := ih (a + 1) h.newTransport.2 (by simp [MemHub.newTransport, hi]) (by
      simp only [MemHub.newTransport, hi]
      rw [GoMap.set_of_not_mem _ _ _ hnot, ho, List.range_succ]
      simp)
    have harith : a + 1 + n = a + (n + 1) := by omega
    rw [harith] at h1
    exact ⟨h1.1, h1.2.1, h1.2.2⟩

theorem get?_range_outputs {U : Type} (n : Nat) (j : Nat) (hj : j < n) :
    GoMap.get? ((List.range n).map (fun k : Nat => ((k : Int), ([] : List (p2pMsg U))))) (j : Int) =
      some [] := by
  have hinj : Function.Injective (fun k : Nat => (k : Int)) := fun a b h => by simpa using h
  have hwf : GoMap.WF ((List.range n).map (fun k : Nat => ((k : Int), ([] : List (p2pMsg U))))) := by
    unfold GoMap.WF GoMap.keys
    rw [List.map_map]
    exact (List.nodup_range n).map hinj
  have hmem : ((j : Int), ([] : List (p2pMsg U))) ∈
      (List.range n).map (fun k : Nat => ((k : Int), ([] : List (p2pMsg U)))) :=
    List.mem_map.mpr ⟨j, List.mem_range.mpr hj, rfl⟩
  exact GoMap.get?_of_mem _ _ _ hwf hmem

/-- C5: in-memory fan-out.  On a hub with `N` handles, a `Broadcast` on handle `i` is
accepted, and the turn of the delivery loop that follows leaves the registry with
the same `N` handles, nothing in the mailbox of handle `i`, and exactly the one
message in the mailbox of every other handle `j`, whose `AwaitNext` then returns
`fromIdx`, the duty and the data set with no error and empties the mailbox. -/
theorem memTransport_fan_out {U : Type} (N i : Nat) (hi : i < N) (pick : Bool) (fromIdx : Int)
    (duty : Duty) (data : UnsignedDataSet U) :
    (memTransport.Broadcast ⟨i⟩ (MemHub.registerN N (MemHub.init : MemHub U)) none pick
        fromIdx duty data).1 = none ∧
      ∃ h2, (memTransport.Broadcast ⟨i⟩ (MemHub.registerN N (MemHub.init : MemHub U)) none pick
          fromIdx duty data).2.deliver = some h2 ∧
        GoMap.keys h2.outputs = (List.range N).map (fun k : Nat => (k : Int)) ∧
        GoMap.get? h2.outputs (i : Int) = some [] ∧
        ∀ j : Nat, j < N → j ≠ i →
          GoMap.get? h2.outputs (j : Int) = some [⟨i, fromIdx, duty, data⟩] ∧
          ∀ pick2, ∃ h3, memTransport.AwaitNext ⟨j⟩ h2 none pick2 =
              some (⟨fromIdx, duty, data, none⟩, h3) ∧
            memTransport.output ⟨j⟩ h3 = [] := by
  obtain ⟨_, houts, hin⟩ := registerN_outputs (U := U) N 0 MemHub.init rfl rfl
  rw [Nat.zero_add] at houts
  have hin2 : (MemHub.registerN N (MemHub.init : MemHub U)).input = [] := hin
  generalize MemHub.registerN N (MemHub.init : MemHub U) = h0 at houts hin2 ⊢
  have hdel : (memTransport.Broadcast ⟨i⟩ h0 none pick fromIdx duty data).2.deliver =
      some (MemHub.mk [] (fanOut ⟨i, fromIdx, duty, data⟩ h0.outputs) h0.index) := by
    unfold memTransport.Broadcast MemHub.deliver
    simp only [hin2, List.nil_append]
  refine ⟨rfl, ⟨_, hdel, ?_, ?_, ?_⟩⟩
  · show GoMap.keys (fanOut _ h0.outputs) = _
    rw [keys_fanOut, houts]
    simp only [GoMap.keys, List.map_map]
    rfl
  · simp only [get?_fanOut, houts, get?_range_outputs N i hi]
    simp
  · intro j hj hne
    have hne2 : ¬ (i : Int) = (j : Int) := by omega
    have hget : GoMap.get? (fanOut (⟨i, fromIdx, duty, data⟩ : p2pMsg U) h0.outputs) (j : Int) =
        some [⟨i, fromIdx, duty, data⟩] := by
      simp only [get?_fanOut, houts, get?_range_outputs N j hj]
      simp [hne2]
    refine ⟨hget, fun pick2 => ⟨MemHub.mk []
      (GoMap.set (fanOut (⟨i, fromIdx, duty, data⟩ : p2pMsg U) h0.outputs) (j : Int) [])
      h0.index, ?_, ?_⟩⟩
    · simp only [memTransport.AwaitNext, memTransport.output, hget, Option.getD_some, awaitSelect]
    · simp [memTransport.output, GoMap.get?_set_self]

/-- C5 on a hub with three handles and a broadcast on the first. -/
theorem memTransport_fan_out_witness :
    (memTransport.Broadcast ⟨(0 : Nat)⟩ (MemHub.registerN 3 (MemHub.init : MemHub SampleData))
        none true 7 ⟨5, .Attester⟩ [([107], SampleData.att 1)]).1 = none ∧
      ∃ h2, (memTransport.Broadcast ⟨(0 : Nat)⟩
          (MemHub.registerN 3 (MemHub.init : MemHub SampleData)) none true
          7 ⟨5, .Attester⟩ [([107], SampleData.att 1)]).2.deliver = some h2 ∧
        GoMap.keys h2.outputs = (List.range 3).map (fun k : Nat => (k : Int)) ∧
        GoMap.get? h2.outputs ((0 : Nat) : Int) = some [] ∧
        ∀ j : Nat, j < 3 → j ≠ 0 →
          GoMap.get? h2.outputs (j : Int) =
            some [⟨(0 : Nat), 7, ⟨5, .Attester⟩, [([107], SampleData.att 1)]⟩] ∧
          ∀ pick2, ∃ h3, memTransport.AwaitNext ⟨j⟩ h2 none pick2 =
              some (⟨7, ⟨5, .Attester⟩, [([107], SampleData.att 1)], none⟩, h3) ∧
            memTransport.output ⟨j⟩ h3 = [] :=
  memTransport_fan_out 3 0 (by decide) true 7 ⟨5, .Attester⟩ [([107], SampleData.att 1)]

/-! ## Cancellation of AwaitNext -/

/-- C6: cancellation of `AwaitNext` in both variants.  With a done context and an
empty mailbox the call returns sender index 0, the zero duty, no data set and the
error of the context, and leaves the transport as it was; the next message put
into the mailbox (by the inbound handler, or by a `Broadcast` on another handle
and the turn of the delivery loop) is what a later call with a live context returns. -/
theorem AwaitNext_cancelled {U W : Type} (lib : JSONLib W) (core : CoreLib U)
    (t : p2pTransport U) (h : MemHub U) (m m2 : memTransport) (err : Error)
    (pick pick2 : Bool) (s : Except Error W) (msg : p2pMsg U) (fromIdx : Int) (duty : Duty)
    (data : UnsignedDataSet U)
    (hch : t.ch = []) (hs : decodeStream lib core s = .ok msg)
    (hreg : GoMap.get? h.outputs m.idx = some []) (hin : h.input = [])
    (hne : m2.idx ≠ m.idx) :
    (t.AwaitNext (some err) pick = some (⟨0, Duty.zero, [], some err⟩, t) ∧
      (t.handle lib core s true).1.AwaitNext none pick2 =
        some (⟨msg.FromIdx, msg.Duty, msg.Data, none⟩, t)) ∧
    (m.AwaitNext h (some err) pick = some (⟨0, Duty.zero, [], some err⟩, h) ∧
      ∃ h2 h3, (m2.Broadcast h none pick fromIdx duty data).2.deliver = some h2 ∧
        m.AwaitNext h2 none pick2 = some (⟨fromIdx, duty, data, none⟩, h3) ∧
        m.output h3 = []) := by
  refine ⟨⟨?_, ?_⟩, ?_, ?_⟩
  · obtain ⟨pi, ps, ch⟩ := t
    simp only at hch
    subst hch
    rfl
  · obtain ⟨pi, ps, ch⟩ := t
    simp only at hch
    subst hch
    simp [p2pTransport.handle, hs, p2pTransport.AwaitNext, awaitSelect]
  · simp [memTransport.AwaitNext, memTransport.output, hreg, awaitSelect]
  · have hget : GoMap.get? (fanOut (⟨m2.idx, fromIdx, duty, data⟩ : p2pMsg U) h.outputs) m.idx =
        some [⟨m2.idx, fromIdx, duty, data⟩] := by
      simp [get?_fanOut, hreg, hne]
    have hdel : (m2.Broadcast h none pick fromIdx duty data).2.deliver =
        some (MemHub.mk [] (fanOut ⟨m2.idx, fromIdx, duty, data⟩ h.outputs) h.index) := by
      unfold memTransport.Broadcast MemHub.deliver
      simp only [hin, List.nil_append]
    refine ⟨_, MemHub.mk [] (GoMap.set (fanOut (⟨m2.idx, fromIdx, duty, data⟩ : p2pMsg U)
      h.outputs) m.idx []) h.index, hdel, ?_, ?_⟩
    · simp only [memTransport.AwaitNext, memTransport.output, hget, Option.getD_some, awaitSelect]
    · simp [memTransport.output, GoMap.get?_set_self]

/-- C6 on a transport with an empty mailbox and on the second of two handles of a
fresh hub. -/
theorem AwaitNext_cancelled_witness :
    ((({ peerIDx := 0, peers := ["a", "b"], ch := [] } : p2pTransport SampleData).AwaitNext
          (some (.new "context canceled")) true =
        some (⟨0, Duty.zero, [], some (.new "context canceled")⟩,
          { peerIDx := 0, peers := ["a", "b"], ch := [] })) ∧
      ((({ peerIDx := 0, peers := ["a", "b"], ch := [] } : p2pTransport SampleData).handle
          docJSON sampleCore
          (.ok { Idx := 0, FromIdx := 1, Duty := ⟨5, .Attester⟩, Data := [([107], [1])] })
          true).1.AwaitNext none false =
        some (⟨1, ⟨5, .Attester⟩, [([107], SampleData.att 1)], none⟩,
          { peerIDx := 0, peers := ["a", "b"], ch := [] }))) ∧
    ((memTransport.AwaitNext ⟨1⟩ (MemHub.registerN 2 (MemHub.init : MemHub SampleData))
          (some (.new "context canceled")) true =
        some (⟨0, Duty.zero, [], some (.new "context canceled")⟩,
          MemHub.registerN 2 MemHub.init)) ∧
      ∃ h2 h3, (memTransport.Broadcast ⟨0⟩ (MemHub.registerN 2 (MemHub.init : MemHub SampleData))
          none true 0 ⟨5, .Attester⟩ [([107], SampleData.att 1)]).2.deliver = some h2 ∧
        memTransport.AwaitNext ⟨1⟩ h2 none false =
          some (⟨0, ⟨5, .Attester⟩, [([107], SampleData.att 1)], none⟩, h3) ∧
        memTransport.output ⟨1⟩ h3 = []) :=
  AwaitNext_cancelled docJSON sampleCore { peerIDx := 0, peers := ["a", "b"], ch := [] }
    (MemHub.registerN 2 MemHub.init) ⟨1⟩ ⟨0⟩ (.new "context canceled") true false
    (.ok { Idx := 0, FromIdx := 1, Duty := ⟨5, .Attester⟩, Data := [([107], [1])] })
    { Idx := 0, FromIdx := 1, Duty := ⟨5, .Attester⟩, Data := [([107], SampleData.att 1)] }
    0 ⟨5, .Attester⟩ [([107], SampleData.att 1)] rfl rfl (by decide) rfl (by decide)

/-! ## Runs of the in-memory hub -/

theorem HubRun.step_broadcast_cases {U : Type} (r : HubRun U) (m : memTransport) (ctx : Context)
    (pick : Bool) (fromIdx : Int) (duty : Duty) (data : UnsignedDataSet U) :
    r.step (.broadcast m ctx pick fromIdx duty data) = r ∨
      r.step (.broadcast m ctx pick fromIdx duty data) =
        { r with
          hub := { r.hub with input := r.hub.input ++ [⟨m.idx, fromIdx, duty, data⟩] },
          accepted := r.accepted ++ [⟨m.idx, fromIdx, duty, data⟩] } := by
  simp only [HubRun.step]
  by_cases hex : m.existsOn r.hub = true
  · rw [if_pos hex]
    unfold memTransport.Broadcast
    rcases ctx with _ | err
    · exact Or.inr rfl
    · cases pick
      · exact Or.inr rfl
      · exact Or.inl rfl
  · rw [if_neg hex]
    exact Or.inl rfl

theorem HubRun.step_deliver_cases {U : Type} (r : HubRun U) :
    r.step .deliver = r ∨
      ∃ msg rest, r.hub.input = msg :: rest ∧
        r.step .deliver =
          { r with
            hub := { r.hub with input := rest, outputs := fanOut msg r.hub.outputs },
            delivered := r.delivered ++ [(msg, GoMap.keys r.hub.outputs)] } := by
  simp only [HubRun.step, MemHub.deliver]
  rcases hin : r.hub.input with _ | ⟨msg, rest⟩
  · exact Or.inl rfl
  · exact Or.inr ⟨msg, rest, rfl, rfl⟩

theorem HubRun.step_awaitNext_cases {U : Type} (r : HubRun U) (m : memTransport) (ctx : Context)
    (pick : Bool) :
    r.step (.awaitNext m ctx pick) = r ∨
      ∃ msg rest, GoMap.get? r.hub.outputs m.idx = some (msg :: rest) ∧
        r.step (.awaitNext m ctx pick) =
          { r with
            hub := { r.hub with outputs := GoMap.set r.hub.outputs m.idx rest },
            received := r.received ++ [(m.idx, msg)] } := by
  simp only [HubRun.step]
  by_cases hex : m.existsOn r.hub = true
  · rw [if_pos hex]
    unfold memTransport.AwaitNext memTransport.output
    rcases hget : GoMap.get? r.hub.outputs m.idx with _ | ch
    · rcases ctx with _ | err <;> exact Or.inl rfl
    · rcases ch with _ | ⟨msg, rest⟩
      · rcases ctx with _ | err <;> exact Or.inl rfl
      · rcases ctx with _ | err
        · exact Or.inr ⟨msg, rest, rfl, rfl⟩
        · cases pick
          · exact Or.inr ⟨msg, rest, rfl, rfl⟩
          · exact Or.inl rfl
  · rw [if_neg hex]
    exact Or.inl rfl

theorem HubRun.Inv_init {U : Type} : (HubRun.init : HubRun U).Inv := by
  refine ⟨List.nodup_nil, ?_, ?_, ?_, rfl, ?_⟩
  · intro k hk; simp [HubRun.init, MemHub.init, GoMap.keys] at hk
  · intro e he; simp [HubRun.init] at he
  · intro e he; simp [HubRun.init] at he
  · intro j ch h; simp [HubRun.init, MemHub.init, GoMap.get?] at h

theorem HubRun.Inv_register {U : Type} (r : HubRun U) (hinv : r.Inv) :
    (r.step .register).Inv := by
  obtain ⟨hwf, hlt, hdel, hrec, hacc, hmail⟩ := hinv
  have hfresh : r.hub.index ∉ GoMap.keys r.hub.outputs := fun h => lt_irrefl _ (hlt _ h)
  refine ⟨GoMap.WF_set _ _ _ hwf, ?_, ?_, ?_, hacc, ?_⟩
  · intro k hk
    rcases (GoMap.mem_keys_set _ _ _ _).mp hk with h | h
    · have := hlt k h
      show k < r.hub.index + 1
      omega
    · show k < r.hub.index + 1
      omega
  · intro e he k hk
    exact (GoMap.mem_keys_set _ _ _ _).mpr (Or.inl (hdel e he k hk))
  · intro e he
    exact (GoMap.mem_keys_set _ _ _ _).mpr (Or.inl (hrec e he))
  · intro j ch hj
    by_cases hji : r.hub.index = j
    · subst hji
      have hch : ch = [] := by
        have h1 : GoMap.get? (GoMap.set r.hub.outputs r.hub.index []) r.hub.index = some ch := hj
        rw [GoMap.get?_set_self] at h1
        exact (Option.some.inj h1).symm
      subst hch
      have h1 : HubRun.receivedBy (r.step .register) r.hub.index = [] := by
        simp only [HubRun.receivedBy, HubRun.step, List.map_eq_nil_iff, List.filter_eq_nil_iff,
          decide_eq_true_eq]
        intro e he h
        exact hfresh (h ▸ hrec e he)
      have h2 : HubRun.owedTo (r.step .register) r.hub.index = [] := by
        simp only [HubRun.owedTo, HubRun.step, List.map_eq_nil_iff, List.filter_eq_nil_iff,
          Bool.and_eq_true, decide_eq_true_eq, not_and]
        intro e he h
        exact absurd (hdel e he _ h) hfresh
      rw [h1, h2]
      rfl
    · have h1 : GoMap.get? r.hub.outputs j = some ch := by
        have h2 : GoMap.get? (GoMap.set r.hub.outputs r.hub.index []) j = some ch := hj
        rwa [GoMap.get?_set_ne _ _ _ _ hji] at h2
      exact hmail j ch h1

theorem HubRun.Inv_broadcast {U : Type} (r : HubRun U) (hinv : r.Inv) (m : memTransport)
    (ctx : Context) (pick : Bool) (fromIdx : Int) (duty : Duty) (data : UnsignedDataSet U) :
    (r.step (.broadcast m ctx pick fromIdx duty data)).Inv := by
  rcases HubRun.step_broadcast_cases r m ctx pick fromIdx duty data with h | h
  · rw [h]; exact hinv
  · rw [h]
    obtain ⟨hwf, hlt, hdel, hrec, hacc, hmail⟩ := hinv
    refine ⟨hwf, hlt, hdel, hrec, ?_, hmail⟩
    show List.map Prod.fst r.delivered ++ (r.hub.input ++ [_]) = r.accepted ++ [_]
    rw [← List.append_assoc, hacc]

theorem HubRun.Inv_deliver {U : Type} (r : HubRun U) (hinv : r.Inv) : (r.step .deliver).Inv := by
  rcases HubRun.step_deliver_cases r with h | ⟨msg, rest, hin, h⟩
  · rw [h]; exact hinv
  · rw [h]
    obtain ⟨hwf, hlt, hdel, hrec, hacc, hmail⟩ := hinv
    refine ⟨?_, ?_, ?_, ?_, ?_, ?_⟩
    · show GoMap.WF (fanOut msg r.hub.outputs)
      unfold GoMap.WF
      rw [keys_fanOut]
      exact hwf
    · intro k hk
      have hk2 : k ∈ GoMap.keys (fanOut msg r.hub.outputs) := hk
      rw [keys_fanOut] at hk2
      exact hlt k hk2
    · intro e he k hk
      show k ∈ GoMap.keys (fanOut msg r.hub.outputs)
      rw [keys_fanOut]
      have he2 : e ∈ r.delivered ++ [(msg, GoMap.keys r.hub.outputs)] := he
      rcases List.mem_append.mp he2 with h1 | h1
      · exact hdel e h1 k hk
      · rw [List.mem_singleton] at h1
        subst h1
        exact hk
    · intro e he
      show e.1 ∈ GoMap.keys (fanOut msg r.hub.outputs)
      rw [keys_fanOut]
      exact hrec e he
    · show List.map Prod.fst (r.delivered ++ [(msg, GoMap.keys r.hub.outputs)]) ++ rest = r.accepted
      rw [← hacc, hin]
      simp
    · intro j ch hj
      have hj2 : GoMap.get? (fanOut msg r.hub.outputs) j = some ch := hj
      rw [get?_fanOut] at hj2
      rcases hold : GoMap.get? r.hub.outputs j with _ | ch0
      · rw [hold] at hj2
        simp at hj2
      · rw [hold] at hj2
        have hmem : j ∈ GoMap.keys r.hub.outputs := (GoMap.mem_keys_iff _ _).mpr ⟨ch0, hold⟩
        have hbase := hmail j ch0 hold
        have hch : ch = if msg.Idx = j then ch0 else ch0 ++ [msg] := by
          simpa using hj2.symm
        show HubRun.receivedBy r j ++ ch =
          (List.filter (fun e => decide (j ∈ e.2) && !decide (e.1.Idx = j))
            (r.delivered ++ [(msg, GoMap.keys r.hub.outputs)])).map Prod.fst
        rw [List.filter_append, List.map_append]
        have hold2 : (List.filter (fun e => decide (j ∈ e.2) && !decide (e.1.Idx = j))
            r.delivered).map Prod.fst = HubRun.receivedBy r j ++ ch0 := hbase.symm
        rw [hold2, hch]
        by_cases hidx : msg.Idx = j
        · simp [hidx]
        · simp [hidx, hmem]

theorem HubRun.Inv_awaitNext {U : Type} (r : HubRun U) (hinv : r.Inv) (m : memTransport)
    (ctx : Context) (pick : Bool) : (r.step (.awaitNext m ctx pick)).Inv := by
  rcases HubRun.step_awaitNext_cases r m ctx pick with h | ⟨msg, rest, hget, h⟩
  · rw [h]; exact hinv
  · rw [h]
    obtain ⟨hwf, hlt, hdel, hrec, hacc, hmail⟩ := hinv
    have hmem : m.idx ∈ GoMap.keys r.hub.outputs := (GoMap.mem_keys_iff _ _).mpr ⟨_, hget⟩
    have hkeys : ∀ k, k ∈ GoMap.keys (GoMap.set r.hub.outputs m.idx rest) ↔
        k ∈ GoMap.keys r.hub.outputs := by
      intro k
      rw [GoMap.mem_keys_set]
      constructor
      · rintro (h1 | rfl)
        · exact h1
        · exact hmem
      · exact Or.inl
    refine ⟨GoMap.WF_set _ _ _ hwf, ?_, ?_, ?_, hacc, ?_⟩
    · intro k hk
      exact hlt k ((hkeys k).mp hk)
    · intro e he k hk
      exact (hkeys k).mpr (hdel e he k hk)
    · intro e he
      have he2 : e ∈ r.received ++ [(m.idx, msg)] := he
      rcases List.mem_append.mp he2 with h1 | h1
      · exact (hkeys _).mpr (hrec e h1)
      · rw [List.mem_singleton] at h1
        subst h1
        exact (hkeys _).mpr hmem
    · intro j ch hj
      have hj2 : GoMap.get? (GoMap.set r.hub.outputs m.idx rest) j = some ch := hj
      show (List.filter (fun e => decide (e.1 = j)) (r.received ++ [(m.idx, msg)])).map Prod.snd ++ ch
        = HubRun.owedTo r j
      rw [List.filter_append, List.map_append]
      by_cases hji : m.idx = j
      · subst hji
        rw [GoMap.get?_set_self] at hj2
        have hch : ch = rest := (Option.some.inj hj2).symm
        subst hch
        have hbase := hmail m.idx (msg :: ch) hget
        rw [← hbase]
        simp [HubRun.receivedBy]
      · rw [GoMap.get?_set_ne _ _ _ _ hji] at hj2
        have hbase := hmail j ch hj2
        rw [← hbase]
        simp [HubRun.receivedBy, hji]

theorem HubRun.Inv_step {U : Type} (r : HubRun U) (hinv : r.Inv) (st : HubStep U) :
    (r.step st).Inv := by
  cases st with
  | register => exact HubRun.Inv_register r hinv
  | broadcast m ctx pick fromIdx duty data => exact HubRun.Inv_broadcast r hinv m ctx pick _ _ _
  | deliver => exact HubRun.Inv_deliver r hinv
  | awaitNext m ctx pick => exact HubRun.Inv_awaitNext r hinv m ctx pick

theorem HubRun.Inv_foldl {U : Type} (steps : List (HubStep U)) :
    ∀ r : HubRun U, r.Inv → (steps.foldl HubRun.step r).Inv := by
  induction steps with
  | nil => intro r h; exact h
  | cons st steps ih => intro r h; exact ih _ (HubRun.Inv_step r h st)

/-- C7: the in-memory transport is reliable and ordered per sender.  In every state
reached from the fresh hub by registrations, broadcasts, turns of the delivery loop
and `AwaitNext` calls: the fanned-out messages followed by those still in `input`
are the accepted messages in the order of acceptance; for every registered handle,
the messages it received followed by those waiting in its mailbox are exactly the
messages fanned out while it was registered and not sent from it, in that order;
and for every receiving handle and every sending handle, the messages received
from that sender are in the order in which its broadcasts were accepted. -/
theorem memTransport_reliable_ordered {U : Type} (steps : List (HubStep U)) :
    (HubRun.exec steps).delivered.map Prod.fst ++ (HubRun.exec steps).hub.input =
        (HubRun.exec steps).accepted ∧
      (∀ j ch, GoMap.get? (HubRun.exec steps).hub.outputs j = some ch →
        (HubRun.exec steps).receivedBy j ++ ch = (HubRun.exec steps).owedTo j) ∧
      (∀ j sender, List.Sublist
        (((HubRun.exec steps).receivedBy j).filter fun msg => decide (msg.Idx = sender))
        ((HubRun.exec steps).accepted.filter fun msg => decide (msg.Idx = sender))) := by
  have hinv : (HubRun.exec steps).Inv := HubRun.Inv_foldl steps HubRun.init HubRun.Inv_init
  generalize HubRun.exec steps = r at hinv ⊢
  obtain ⟨hwf, hlt, hdel, hrec, hacc, hmail⟩ := hinv
  refine ⟨hacc, hmail, fun j sender => ?_⟩
  apply List.Sublist.filter
  rcases hget : GoMap.get? r.hub.outputs j with _ | ch
  · have hnot : j ∉ GoMap.keys r.hub.outputs := (GoMap.get?_eq_none_iff _ _).mp hget
    have hnil : r.receivedBy j = [] := by
      simp only [HubRun.receivedBy, List.map_eq_nil_iff, List.filter_eq_nil_iff,
        decide_eq_true_eq]
      intro e he h
      exact hnot (h ▸ hrec e he)
    rw [hnil]
    exact List.nil_sublist _
  · have h1 : List.Sublist (r.receivedBy j) (r.owedTo j) := by
      rw [← hmail j ch hget]
      exact List.sublist_append_left _ _
    have h2 : List.Sublist (r.owedTo j) (r.delivered.map Prod.fst) :=
      List.Sublist.map _ (List.filter_sublist _)
    have h3 : List.Sublist (r.delivered.map Prod.fst) r.accepted := by
      rw [← hacc]
      exact List.sublist_append_left _ _
    exact (h1.trans h2).trans h3

/-! ## The duty fetcher -/

theorem dispatch_invocations (duty : Duty) (set : UnsignedDataSet UnsignedData)
    (subs : List Subscriber) :
    ∀ (i : Nat) (acc : List Invocation), ∀ inv ∈ (dispatch duty set i subs acc).2,
      inv ∈ acc ∨ (inv.duty = duty ∧ inv.set = set) := by
  induction subs with
  | nil => intro i acc inv h; exact Or.inl h
  | cons sub rest ih =>
    intro i acc inv h
    unfold dispatch at h
    rcases hs : sub duty set with _ | err
    · rw [hs] at h
      rcases ih _ _ inv h with h1 | h1
      · rcases List.mem_append.mp h1 with h2 | h2
        · exact Or.inl h2
        · rw [List.mem_singleton] at h2
          subst h2
          exact Or.inr ⟨rfl, rfl⟩
      · exact Or.inr h1
    · rw [hs] at h
      rcases List.mem_append.mp h with h2 | h2
      · exact Or.inl h2
      · rw [List.mem_singleton] at h2
        subst h2
        exact Or.inr ⟨rfl, rfl⟩

theorem Error.Is_self (e : Error) : e.Is e = true := by
  cases e <;> simp [Error.Is]

/-- The subscriber calls of one dispatch: they go to the subscribers in registration
order from position `i` on, each call returns what the callback answers, a call
that returns an error is the last one and its error is the result, and without an
error every subscriber is called. -/
theorem dispatch_spec (duty : Duty) (set : UnsignedDataSet UnsignedData)
    (subs : List Subscriber) :
    ∀ (i : Nat) (acc : List Invocation), ∃ new,
      (dispatch duty set i subs acc).2 = acc ++ new ∧
      new.length ≤ subs.length ∧
      new.map Invocation.sub = List.range' i new.length ∧
      new.map Invocation.ret = (subs.take new.length).map (fun sub => sub duty set) ∧
      (∀ k e, (new.map Invocation.ret)[k]? = some (some e) →
        k + 1 = new.length ∧ (dispatch duty set i subs acc).1 = some e) ∧
      (∀ e, (dispatch duty set i subs acc).1 = some e →
        0 < new.length ∧ (new.map Invocation.ret)[new.length - 1]? = some (some e)) ∧
      ((dispatch duty set i subs acc).1 = none → new.length = subs.length) := by
  induction subs with
  | nil =>
    intro i acc
    exact ⟨[], by simp [dispatch], by simp, by simp, by simp, by simp, by simp [dispatch],
      by simp⟩
  | cons sub rest ih =>
    intro i acc
    unfold dispatch
    rcases hs : sub duty set with _ | err
    · obtain ⟨new, h1, h2, h3, h4, h5, h6, h7⟩ := ih (i + 1) (acc ++ [⟨i, duty, set, none⟩])
      refine ⟨⟨i, duty, set, none⟩ :: new, ?_, ?_, ?_, ?_, ?_, ?_, ?_⟩
      · simp only [h1, List.append_assoc, List.singleton_append]
      · simpa using h2
      · simp only [List.map_cons, List.length_cons, h3]
        rfl
      · simp only [List.map_cons, List.length_cons, List.take_succ_cons, h4, hs]
      · intro k e hk
        cases k with
        | zero => simp at hk
        | succ k =>
          simp only [List.map_cons, List.getElem?_cons_succ] at hk
          obtain ⟨hk1, hk2⟩ := h5 k e hk
          exact ⟨by simp [hk1], hk2⟩
      · intro e he
        obtain ⟨hpos, hlast⟩ := h6 e he
        refine ⟨by simp, ?_⟩
        have hlen : (⟨i, duty, set, none⟩ :: new : List Invocation).length - 1 =
            (new.length - 1) + 1 := by
          simp only [List.length_cons]
          omega
        rw [hlen]
        simpa using hlast
      · intro he
        simp [h7 he]
    · refine ⟨[⟨i, duty, set, some err⟩], by simp, by simp, by simp [List.range'],
        by simp [hs], ?_, ?_, by simp⟩
      · intro k e hk
        cases k with
        | zero =>
          simp only [List.map_cons, List.map_nil, List.getElem?_cons_zero, Option.some.injEq] at hk
          exact ⟨rfl, by rw [hk]⟩
        | succ k => simp at hk
      · intro e he
        simp only [Option.some.injEq] at he
        subst he
        simp

/-- C10: subscriber errors propagate verbatim and halt dispatch.  For every `Fetch` whose
data set is built, the subscribers called are the first ones in registration order,
each with the duty and the built set and each returning what its callback answers;
a call that returns an error `e` is the last call of the fetch, and the fetch
returns `e` itself, so `errors.Is` holds; an error returned by the fetch is the one
of the last call; and unless the fetch found no aggregator and returned before the
dispatch, a fetch without an error has called every subscriber. -/
theorem Fetch_subscriber_error_halts (f : Fetcher) (duty : Duty) (defSet : DutyDefinitionSet)
    (set : UnsignedDataSet UnsignedData) (s : FetchState)
    (hbuild : f.build duty defSet = (.ok set, s)) :
    (f.Fetch duty defSet).invoked.length ≤ f.subs.length ∧
      (f.Fetch duty defSet).invoked.map Invocation.sub =
        List.range (f.Fetch duty defSet).invoked.length ∧
      (∀ inv ∈ (f.Fetch duty defSet).invoked, inv.duty = duty ∧ inv.set = set) ∧
      (f.Fetch duty defSet).invoked.map Invocation.ret =
        (f.subs.take (f.Fetch duty defSet).invoked.length).map (fun sub => sub duty set) ∧
      (∀ k e, ((f.Fetch duty defSet).invoked.map Invocation.ret)[k]? = some (some e) →
        k + 1 = (f.Fetch duty defSet).invoked.length ∧ (f.Fetch duty defSet).err = some e ∧
          ∃ err, (f.Fetch duty defSet).err = some err ∧ err.Is e = true) ∧
      (∀ e, (f.Fetch duty defSet).err = some e →
        0 < (f.Fetch duty defSet).invoked.length ∧
          ((f.Fetch duty defSet).invoked.map Invocation.ret)[
            (f.Fetch duty defSet).invoked.length - 1]? = some (some e)) ∧
      ((duty.Typ.aggregating && set.isEmpty) = false → (f.Fetch duty defSet).err = none →
        (f.Fetch duty defSet).invoked.length = f.subs.length) := by
  by_cases hshort : (duty.Typ.aggregating && set.isEmpty) = true
  · have hres : f.Fetch duty defSet = { err := none, calls := s.calls, invoked := [] } := by
      simp [Fetcher.Fetch, hbuild, hshort]
    rw [hres]
    exact ⟨by simp, by simp, by simp, by simp, by simp, by simp, by simp [hshort]⟩
  · have hshort2 : (duty.Typ.aggregating && set.isEmpty) = false := by
      simpa using hshort
    have hres : f.Fetch duty defSet =
        { err := (dispatch duty set 0 f.subs []).1, calls := s.calls,
          invoked := (dispatch duty set 0 f.subs []).2 } := by
      simp [Fetcher.Fetch, hbuild, hshort2]
    obtain ⟨new, h1, h2, h3, h4, h5, h6, h7⟩ := dispatch_spec duty set f.subs 0 []
    rw [List.nil_append] at h1
    rw [hres]
    simp only [h1]
    refine ⟨h2, by rw [h3, List.range_eq_range'], ?_, h4, ?_, h6, fun _ => h7⟩
    · intro inv hinv
      rcases dispatch_invocations duty set f.subs 0 [] inv (h1 ▸ hinv) with h | h
      · simp at h
      · exact h
    · intro k e hk
      obtain ⟨hk1, hk2⟩ := h5 k e hk
      exact ⟨hk1, hk2, e, hk2, Error.Is_self e⟩

/-- C10 at an Attester fetch with three subscribers of which the second returns `done`:
two subscribers are called and the fetch returns `done`. -/
theorem Fetch_subscriber_error_halts_witness :
    (mockFetcher sampleSubs).build ⟨1, .Attester⟩ sampleDefSet =
        (.ok [([65], .AttestationData ⟨1, 7, 0⟩ ⟨1, 2, 7, 99⟩)],
          ⟨[.AttestationData 1 7], [(7, ⟨1, 7, 0⟩)], [], []⟩) ∧
      ((mockFetcher sampleSubs).Fetch ⟨1, .Attester⟩ sampleDefSet).invoked.map Invocation.sub =
        [0, 1] ∧
      ((mockFetcher sampleSubs).Fetch ⟨1, .Attester⟩ sampleDefSet).err = some (.new "done") ∧
      (∀ k e, (((mockFetcher sampleSubs).Fetch ⟨1, .Attester⟩ sampleDefSet).invoked.map
          Invocation.ret)[k]? = some (some e) →
        k + 1 = ((mockFetcher sampleSubs).Fetch ⟨1, .Attester⟩ sampleDefSet).invoked.length ∧
          ((mockFetcher sampleSubs).Fetch ⟨1, .Attester⟩ sampleDefSet).err = some e ∧
          ∃ err, ((mockFetcher sampleSubs).Fetch ⟨1, .Attester⟩ sampleDefSet).err = some err ∧
            err.Is e = true) :=
  ⟨rfl, by decide, by decide,
    (Fetch_subscriber_error_halts (mockFetcher sampleSubs) ⟨1, .Attester⟩ sampleDefSet
      [([65], .AttestationData ⟨1, 7, 0⟩ ⟨1, 2, 7, 99⟩)]
      ⟨[.AttestationData 1 7], [(7, ⟨1, 7, 0⟩)], [], []⟩ rfl).2.2.2.2.1⟩

/-! ## The Aggregator branch of the fetcher -/

theorem awaitAggSigDB_calls (f : Fetcher) (duty : Duty) (k : PubKey) (s s1 : FetchState)
    (r : Except Error SignedData) (h : f.awaitAggSigDB duty k s = (r, s1)) :
    s1.calls = s.calls ∨ s1.calls = s.calls ++ [.AggSigDB duty k] := by
  unfold Fetcher.awaitAggSigDB at h
  split at h <;> simp only [Prod.mk.injEq] at h <;> obtain ⟨_, rfl⟩ := h
  · exact Or.inl rfl
  · exact Or.inr rfl

/-- An aggregate lookup in the record of calls after the Aggregator body has run for a
validator was in the record before, or it is the lookup of this run: then the
validator carries the aggregator marker, the lookup is for the hash of the awaited
attestation data of its committee, and if the provider answers it "not found" the
body fails with the retryable error. -/
theorem aggregatorBody_lookup (f : Fetcher) (slot : Int) (k : PubKey) (d : DutyDefinition)
    (s s9 : FetchState) (r : Except Error (Option UnsignedData))
    (h : f.aggregatorBody slot k d s = (r, s9)) (sl : Int) (root : Nat)
    (hc : Call.AggregateAttestation sl root ∈ s9.calls) :
    Call.AggregateAttestation sl root ∈ s.calls ∨
      (sl = slot ∧ d.CommitteeLength = commLenAggregator ∧
        (∃ await attData, f.awaitAttDataFunc = some await ∧
          await slot d.CommitteeIndex = .ok attData ∧ root = f.HashTreeRoot attData) ∧
        (f.eth2Cl.AggregateAttestation sl root = .ok none →
          r = .error errAggregateNotFound)) := by
  unfold Fetcher.aggregatorBody at h
  rcases hdb : f.awaitAggSigDB ⟨slot, .PrepareAggregator⟩ k s with ⟨r0, s1⟩
  have hin1 : Call.AggregateAttestation sl root ∈ s1.calls →
      Call.AggregateAttestation sl root ∈ s.calls := by
    intro hm
    rcases awaitAggSigDB_calls f _ k s s1 r0 hdb with h1 | h1
    · rw [h1] at hm
      exact hm
    · rw [h1] at hm
      simpa using hm
  rw [hdb] at h
  rcases r0 with e0 | sd
  · simp only [Prod.mk.injEq] at h
    obtain ⟨_, rfl⟩ := h
    exact Or.inl (hin1 hc)
  · simp only at h
    by_cases hmark : d.CommitteeLength ≠ commLenAggregator
    · rw [if_pos hmark] at h
      simp only [Prod.mk.injEq] at h
      obtain ⟨_, rfl⟩ := h
      exact Or.inl (hin1 hc)
    · rw [if_neg hmark] at h
      have hmark2 : d.CommitteeLength = commLenAggregator := by
        by_contra hne
        exact hmark hne
      rcases hcache : GoMap.get? s1.aggregates d.CommitteeIndex with _ | att0
      · rw [hcache] at h
        simp only at h
        rcases haw : f.awaitAttDataFunc with _ | await
        · rw [haw] at h
          simp only [Prod.mk.injEq] at h
          obtain ⟨_, rfl⟩ := h
          exact Or.inl (hin1 hc)
        · rw [haw] at h
          simp only at h
          rcases hat : await slot d.CommitteeIndex with e1 | attData
          · rw [hat] at h
            simp only [Prod.mk.injEq] at h
            obtain ⟨_, rfl⟩ := h
            refine Or.inl (hin1 ?_)
            simpa [FetchState.call] using hc
          · rw [hat] at h
            simp only at h
            have hnew : Call.AggregateAttestation sl root ∈
                ((s1.call (.AwaitAttData slot d.CommitteeIndex)).call
                  (.AggregateAttestation slot (f.HashTreeRoot attData))).calls →
                Call.AggregateAttestation sl root ∈ s1.calls ∨
                  (sl = slot ∧ root = f.HashTreeRoot attData) := by
              intro hm
              simpa [FetchState.call] using hm
            rcases hag : f.eth2Cl.AggregateAttestation slot (f.HashTreeRoot attData) with
              e2 | _ | att
            · rw [hag] at h
              simp only [Prod.mk.injEq] at h
              obtain ⟨rfl, rfl⟩ := h
              rcases hnew hc with hold | ⟨rfl, rfl⟩
              · exact Or.inl (hin1 hold)
              · exact Or.inr ⟨rfl, hmark2, ⟨await, attData, rfl, hat, rfl⟩, fun hnf => by
                  rw [hag] at hnf
                  cases hnf⟩
            · rw [hag] at h
              simp only [Prod.mk.injEq] at h
              obtain ⟨rfl, rfl⟩ := h
              rcases hnew hc with hold | ⟨rfl, rfl⟩
              · exact Or.inl (hin1 hold)
              · exact Or.inr ⟨rfl, hmark2, ⟨await, attData, rfl, hat, rfl⟩, fun _ => rfl⟩
            · rw [hag] at h
              simp only [Prod.mk.injEq] at h
              obtain ⟨rfl, rfl⟩ := h
              rcases hnew hc with hold | ⟨rfl, rfl⟩
              · exact Or.inl (hin1 hold)
              · exact Or.inr ⟨rfl, hmark2, ⟨await, attData, rfl, hat, rfl⟩, fun hnf => by
                  rw [hag] at hnf
                  cases hnf⟩
      · rw [hcache] at h
        simp only [Prod.mk.injEq] at h
        obtain ⟨_, rfl⟩ := h
        exact Or.inl (hin1 hc)

/-- An aggregate lookup in the record of calls after the Aggregator loop was in the
record before the loop, or it was made by the loop for a validator of the
definition set that carries the aggregator marker, for the hash of the awaited
attestation data of its committee; and if the provider answers it "not found", the
loop fails with the retryable error. -/
theorem rangeBuild_lookup (f : Fetcher) (slot : Int) (sl : Int) (root : Nat)
    (defSet : DutyDefinitionSet) :
    ∀ (s : FetchState) (resp : UnsignedDataSet UnsignedData)
      (r : Except Error (UnsignedDataSet UnsignedData)) (s2 : FetchState),
      rangeBuild (f.aggregatorBody slot) defSet s resp = (r, s2) →
      Call.AggregateAttestation sl root ∈ s2.calls →
      Call.AggregateAttestation sl root ∈ s.calls ∨
        (sl = slot ∧
          (∃ k d, (k, d) ∈ defSet ∧ d.CommitteeLength = commLenAggregator ∧
            ∃ await attData, f.awaitAttDataFunc = some await ∧
              await slot d.CommitteeIndex = .ok attData ∧ root = f.HashTreeRoot attData) ∧
          (f.eth2Cl.AggregateAttestation sl root = .ok none →
            r = .error errAggregateNotFound)) := by
  induction defSet with
  | nil =>
    intro s resp r s2 h hc
    simp only [rangeBuild, Prod.mk.injEq] at h
    obtain ⟨_, rfl⟩ := h
    exact Or.inl hc
  | cons e0 rest ih =>
    obtain ⟨k0, d0⟩ := e0
    intro s resp r s2 h hc
    unfold rangeBuild at h
    rcases hb : f.aggregatorBody slot k0 d0 s with ⟨e1 | _ | x, s1⟩
    · rw [hb] at h
      simp only [Prod.mk.injEq] at h
      obtain ⟨rfl, rfl⟩ := h
      rcases aggregatorBody_lookup f slot k0 d0 s s1 _ hb sl root hc with hold | ⟨h1, h2, h3, h4⟩
      · exact Or.inl hold
      · exact Or.inr ⟨h1, ⟨k0, d0, List.mem_cons_self _ _, h2, h3⟩, fun hnf => by
          have h5 := h4 hnf
          simp only [Except.error.injEq] at h5
          rw [h5]⟩
    · rw [hb] at h
      rcases ih s1 resp r s2 h hc with hmid | ⟨h1, ⟨k, d, hm, h2, h3⟩, h4⟩
      · rcases aggregatorBody_lookup f slot k0 d0 s s1 _ hb sl root hmid with
          hold | ⟨h1, h2, h3, h4⟩
        · exact Or.inl hold
        · exact Or.inr ⟨h1, ⟨k0, d0, List.mem_cons_self _ _, h2, h3⟩, fun hnf => by
            have h5 := h4 hnf
            cases h5⟩
      · exact Or.inr ⟨h1, ⟨k, d, List.mem_cons_of_mem _ hm, h2, h3⟩, h4⟩
    · rw [hb] at h
      rcases ih s1 _ r s2 h hc with hmid | ⟨h1, ⟨k, d, hm, h2, h3⟩, h4⟩
      · rcases aggregatorBody_lookup f slot k0 d0 s s1 _ hb sl root hmid with
          hold | ⟨h1, h2, h3, h4⟩
        · exact Or.inl hold
        · exact Or.inr ⟨h1, ⟨k0, d0, List.mem_cons_self _ _, h2, h3⟩, fun hnf => by
            have h5 := h4 hnf
            cases h5⟩
      · exact Or.inr ⟨h1, ⟨k, d, List.mem_cons_of_mem _ hm, h2, h3⟩, h4⟩

/-- C11: aggregate not found.  In every Aggregator fetch that makes the aggregate
lookup of the provider and is answered "not found" (no attestation and no error),
`Fetch` fails with the error of the text "aggregate attestation not found by root
(retryable)", which is classified retryable, and no subscriber is called.  The
lookup the fetch makes is the one of the claim: it is made at the slot of the duty,
for a definition of the set that carries the aggregator marker, and for the hash of
the awaited attestation data of that definition's committee. -/
theorem Fetch_aggregate_not_found (f : Fetcher) (duty : Duty) (defSet : DutyDefinitionSet)
    (slot : Int) (root : Nat) (hT : duty.Typ = .Aggregator)
    (hcall : Call.AggregateAttestation slot root ∈ (f.Fetch duty defSet).calls)
    (hnf : f.eth2Cl.AggregateAttestation slot root = .ok none) :
    (f.Fetch duty defSet).err = some errAggregateNotFound ∧
      errAggregateNotFound.classifiedRetryable = true ∧
      containsText errAggregateNotFound.text
        "aggregate attestation not found by root (retryable)" ∧
      (f.Fetch duty defSet).invoked = [] ∧
      slot = duty.Slot ∧
      ∃ k d, (k, d) ∈ defSet ∧ d.CommitteeLength = commLenAggregator ∧
        ∃ await attData, f.awaitAttDataFunc = some await ∧
          await duty.Slot d.CommitteeIndex = .ok attData ∧ root = f.HashTreeRoot attData := by
  rcases hloop : rangeBuild (f.aggregatorBody duty.Slot) defSet FetchState.init [] with ⟨r, s2⟩
  have hbuild : f.build duty defSet = (r, s2) := by
    unfold Fetcher.build
    rw [hT]
    exact hloop
  have hcalls : (f.Fetch duty defSet).calls = s2.calls := by
    unfold Fetcher.Fetch
    rw [hbuild]
    rcases r with e | set
    · rfl
    · dsimp only
      split <;> rfl
  rw [hcalls] at hcall
  rcases rangeBuild_lookup f duty.Slot slot root defSet _ _ r s2 hloop hcall with
    hold | ⟨h1, h2, h3⟩
  · simp [FetchState.init] at hold
  · have hr := h3 hnf
    subst hr
    have hres : f.Fetch duty defSet =
        { err := some errAggregateNotFound, calls := s2.calls, invoked := [] } := by
      unfold Fetcher.Fetch
      rw [hbuild]
    rw [hres]
    exact ⟨rfl, rfl, by decide, rfl, h1, h2⟩

/-- C11 at the third `Fetch` of `TestFetchAggregator`: the provider knows no aggregate,
the fetch makes the lookup for the hash of the attestation data of committee 7 and
fails with the retryable error before the subscriber, which would return `done`,
is called. -/
theorem Fetch_aggregate_not_found_witness :
    Call.AggregateAttestation 1 7 ∈ (notFoundFetcher.Fetch ⟨1, .Aggregator⟩
        [([65], ⟨1, 2, 7, commLenAggregator⟩), ([66], ⟨1, 3, 8, commLenAggregator⟩)]).calls ∧
      notFoundFetcher.eth2Cl.AggregateAttestation 1 7 = .ok none ∧
      (notFoundFetcher.Fetch ⟨1, .Aggregator⟩
        [([65], ⟨1, 2, 7, commLenAggregator⟩), ([66], ⟨1, 3, 8, commLenAggregator⟩)]).err =
        some errAggregateNotFound ∧
      (notFoundFetcher.Fetch ⟨1, .Aggregator⟩
        [([65], ⟨1, 2, 7, commLenAggregator⟩), ([66], ⟨1, 3, 8, commLenAggregator⟩)]).invoked = [] :=
  have h := Fetch_aggregate_not_found notFoundFetcher ⟨1, .Aggregator⟩
    [([65], ⟨1, 2, 7, commLenAggregator⟩), ([66], ⟨1, 3, 8, commLenAggregator⟩)]
    1 7 rfl (by decide) rfl
  ⟨by decide, rfl, h.1, h.2.2.2.1⟩

theorem commLenNoAggregator_ne : commLenNoAggregator ≠ commLenAggregator := by
  decide

/-- At a validator with the non-aggregator sentinel the Aggregator body only waits
on AggSigDB: it fails with the error of the wait or leaves the validator without
an entry. -/
theorem aggregatorBody_sentinel (f : Fetcher) (slot : Int) (k : PubKey) (d : DutyDefinition)
    (hd : d.CommitteeLength = commLenNoAggregator) (s : FetchState) :
    f.aggregatorBody slot k d s =
      match f.awaitAggSigDB ⟨slot, .PrepareAggregator⟩ k s with
      | (.error err, s1) => (.error (.wrap err "fetch aggregator data"), s1)
      | (.ok _, s1) => (.ok none, s1) := by
  unfold Fetcher.aggregatorBody
  rcases f.awaitAggSigDB ⟨slot, .PrepareAggregator⟩ k s with ⟨e0 | sd, s1⟩
  · rfl
  · simp [hd, commLenNoAggregator_ne]

/-- Over a definition set in which every validator carries the non-aggregator
sentinel, the Aggregator loop makes no call but waits on AggSigDB and stores no
entry. -/
theorem rangeBuild_all_sentinel (f : Fetcher) (slot : Int) (defSet : DutyDefinitionSet) :
    (∀ k d, (k, d) ∈ defSet → d.CommitteeLength = commLenNoAggregator) →
    ∀ (s : FetchState) (resp : UnsignedDataSet UnsignedData)
      (r : Except Error (UnsignedDataSet UnsignedData)) (s2 : FetchState),
      rangeBuild (f.aggregatorBody slot) defSet s resp = (r, s2) →
      (∀ c ∈ s2.calls, c ∈ s.calls ∨ ∃ duty k, c = Call.AggSigDB duty k) ∧
        (∀ out, r = .ok out → out = resp) := by
  induction defSet with
  | nil =>
    intro _ s resp r s2 h
    simp only [rangeBuild, Prod.mk.injEq] at h
    obtain ⟨rfl, rfl⟩ := h
    exact ⟨fun c hc => Or.inl hc, fun out ho => (Except.ok.inj ho).symm⟩
  | cons e0 rest ih =>
    obtain ⟨k0, d0⟩ := e0
    intro hall s resp r s2 h
    have hd0 := hall k0 d0 (List.mem_cons_self _ _)
    have hrest : ∀ k d, (k, d) ∈ rest → d.CommitteeLength = commLenNoAggregator :=
      fun k d hm => hall k d (List.mem_cons_of_mem _ hm)
    unfold rangeBuild at h
    rw [aggregatorBody_sentinel f slot k0 d0 hd0 s] at h
    rcases hdb : f.awaitAggSigDB ⟨slot, .PrepareAggregator⟩ k0 s with ⟨e1 | sd, s1⟩
    · rw [hdb] at h
      simp only [Prod.mk.injEq] at h
      obtain ⟨rfl, rfl⟩ := h
      refine ⟨fun c hc => ?_, fun out ho => by cases ho⟩
      rcases awaitAggSigDB_calls f _ k0 s s1 _ hdb with h1 | h1
      · rw [h1] at hc
        exact Or.inl hc
      · rw [h1] at hc
        rcases List.mem_append.mp hc with h2 | h2
        · exact Or.inl h2
        · exact Or.inr ⟨_, _, List.mem_singleton.mp h2⟩
    · rw [hdb] at h
      obtain ⟨hcalls, hout⟩ := ih hrest s1 resp r s2 h
      refine ⟨fun c hc => ?_, hout⟩
      rcases hcalls c hc with h1 | h1
      · rcases awaitAggSigDB_calls f _ k0 s s1 _ hdb with h2 | h2
        · rw [h2] at h1
          exact Or.inl h1
        · rw [h2] at h1
          rcases List.mem_append.mp h1 with h3 | h3
          · exact Or.inl h3
          · exact Or.inr ⟨_, _, List.mem_singleton.mp h3⟩
      · exact Or.inr h1

/-- Over a definition set in which every validator carries the non-aggregator
sentinel, the Aggregator loop succeeds when every wait on AggSigDB succeeds. -/
theorem rangeBuild_all_sentinel_ok (f : Fetcher) (slot : Int) (defSet : DutyDefinitionSet)
    (db : Duty → PubKey → Except Error SignedData) (hdb : f.aggSigDBFunc = some db) :
    (∀ k d, (k, d) ∈ defSet → d.CommitteeLength = commLenNoAggregator) →
    (∀ k d, (k, d) ∈ defSet → ∃ sd, db ⟨slot, .PrepareAggregator⟩ k = .ok sd) →
    ∀ (s : FetchState) (resp : UnsignedDataSet UnsignedData),
      ∃ s2, rangeBuild (f.aggregatorBody slot) defSet s resp = (.ok resp, s2) := by
  induction defSet with
  | nil => intro _ _ s resp; exact ⟨s, rfl⟩
  | cons e0 rest ih =>
    obtain ⟨k0, d0⟩ := e0
    intro hall hok s resp
    obtain ⟨sd, hsd⟩ := hok k0 d0 (List.mem_cons_self _ _)
    unfold rangeBuild
    rw [aggregatorBody_sentinel f slot k0 d0 (hall k0 d0 (List.mem_cons_self _ _)) s]
    simp only [Fetcher.awaitAggSigDB, hdb, hsd]
    exact ih (fun k d hm => hall k d (List.mem_cons_of_mem _ hm))
      (fun k d hm => hok k d (List.mem_cons_of_mem _ hm)) _ resp

/-- C12, as stated, fails: in an Aggregator fetch in which every definition carries the
non-aggregator sentinel, an AggSigDB that fails the wait for the selection proof
makes the fetch fail. -/
theorem Fetch_all_sentinel_AggSigDB_error :
    (∀ e ∈ ([([65], ⟨1, 2, 7, commLenNoAggregator⟩), ([66], ⟨1, 3, 8, commLenNoAggregator⟩)] :
        DutyDefinitionSet), e.2.CommitteeLength = commLenNoAggregator) ∧
      (failingDBFetcher.Fetch ⟨1, .Aggregator⟩
        [([65], ⟨1, 2, 7, commLenNoAggregator⟩), ([66], ⟨1, 3, 8, commLenNoAggregator⟩)]).err =
        some (.wrap (.new "error") "fetch aggregator data") := by
  decide

/-- C12, amended: in an Aggregator fetch in which every definition carries the
non-aggregator sentinel, the only calls `Fetch` makes are waits on AggSigDB, so no
aggregate-attestation lookup is made on the provider, and no subscriber is called;
and when every wait on AggSigDB for a selection proof succeeds, `Fetch` returns no
error. -/
theorem Fetch_all_non_aggregators (f : Fetcher) (duty : Duty) (defSet : DutyDefinitionSet)
    (hT : duty.Typ = .Aggregator)
    (hall : ∀ k d, (k, d) ∈ defSet → d.CommitteeLength = commLenNoAggregator) :
    (∀ c ∈ (f.Fetch duty defSet).calls, ∃ duty1 k, c = Call.AggSigDB duty1 k) ∧
      (∀ slot root, Call.AggregateAttestation slot root ∉ (f.Fetch duty defSet).calls) ∧
      (f.Fetch duty defSet).invoked = [] ∧
      (f.selectionWaitsSucceed duty.Slot defSet → (f.Fetch duty defSet).err = none) := by
  rcases hloop : rangeBuild (f.aggregatorBody duty.Slot) defSet FetchState.init [] with ⟨r, s2⟩
  obtain ⟨hcalls, hout⟩ := rangeBuild_all_sentinel f duty.Slot defSet hall _ _ r s2 hloop
  have hbuild : f.build duty defSet = (r, s2) := by
    unfold Fetcher.build
    rw [hT]
    exact hloop
  have hcalls2 : ∀ c ∈ s2.calls, ∃ duty1 k, c = Call.AggSigDB duty1 k := by
    intro c hc
    rcases hcalls c hc with h | h
    · simp [FetchState.init] at h
    · exact h
  have hres : (f.Fetch duty defSet).calls = s2.calls ∧ (f.Fetch duty defSet).invoked = [] ∧
      (∀ out, r = .ok out → (f.Fetch duty defSet).err = none) := by
    unfold Fetcher.Fetch
    rw [hbuild]
    rcases r with e | out
    · exact ⟨rfl, rfl, fun out ho => by cases ho⟩
    · have ho : out = [] := hout out rfl
      subst ho
      simp [hT, DutyType.aggregating]
  obtain ⟨hc, hi, he⟩ := hres
  refine ⟨fun c hmem => hcalls2 c (hc ▸ hmem), fun slot root hmem => ?_, hi, fun hsel => ?_⟩
  · obtain ⟨duty1, k, hk⟩ := hcalls2 _ (hc ▸ hmem)
    cases hk
  · obtain ⟨db, hdb, hok⟩ := hsel
    obtain ⟨s3, hs3⟩ := rangeBuild_all_sentinel_ok f duty.Slot defSet db hdb hall hok
      FetchState.init []
    rw [hloop] at hs3
    exact he [] (congrArg Prod.fst hs3)

/-- The amended C12 at the second `Fetch` of `TestFetchAggregator`: every definition
carries the sentinel, AggSigDB answers, the subscriber would return `done`, and the
fetch returns no error after two waits on AggSigDB. -/
theorem Fetch_all_non_aggregators_witness :
    ((mockFetcher [fun _ _ => some (.new "done")]).Fetch ⟨1, .Aggregator⟩
        [([65], ⟨1, 2, 7, commLenNoAggregator⟩), ([66], ⟨1, 3, 8, commLenNoAggregator⟩)]).calls =
        [.AggSigDB ⟨1, .PrepareAggregator⟩ [65], .AggSigDB ⟨1, .PrepareAggregator⟩ [66]] ∧
      ((mockFetcher [fun _ _ => some (.new "done")]).Fetch ⟨1, .Aggregator⟩
        [([65], ⟨1, 2, 7, commLenNoAggregator⟩), ([66], ⟨1, 3, 8, commLenNoAggregator⟩)]).invoked =
        [] ∧
      ((mockFetcher [fun _ _ => some (.new "done")]).Fetch ⟨1, .Aggregator⟩
        [([65], ⟨1, 2, 7, commLenNoAggregator⟩), ([66], ⟨1, 3, 8, commLenNoAggregator⟩)]).err =
        none :=
  have h := Fetch_all_non_aggregators (mockFetcher [fun _ _ => some (.new "done")])
    ⟨1, .Aggregator⟩
    [([65], ⟨1, 2, 7, commLenNoAggregator⟩), ([66], ⟨1, 3, 8, commLenNoAggregator⟩)] rfl
    (by
      intro k d hm
      simp only [List.mem_cons, Prod.mk.injEq, List.mem_nil_iff, or_false] at hm
      rcases hm with ⟨_, rfl⟩ | ⟨_, rfl⟩ <;> rfl)
  ⟨by decide, h.2.2.1, h.2.2.2 ⟨_, rfl, fun k d _ => ⟨.BeaconCommitteeSelection 1, rfl⟩⟩⟩

/-! ## The delivery diagnostic of Broadcast -/

theorem sendData_script {W : Type} (net : Net W) (p : PeerID) (b : W) :
    (sendData net p b).2.script = net.script.tail := by
  unfold sendData
  generalize net.script.headD ⟨none, none, none⟩ = sc
  obtain ⟨o, w, c⟩ := sc
  cases o <;> cases w <;> cases c <;> rfl

theorem sendData_err {W : Type} (net : Net W) (p : PeerID) (b : W) :
    (sendData net p b).1.isSome = (net.script.headD ⟨none, none, none⟩).fails := by
  unfold sendData
  generalize net.script.headD ⟨none, none, none⟩ = sc
  obtain ⟨o, w, c⟩ := sc
  cases o <;> cases w <;> cases c <;> rfl

theorem Net.failures_succ {W : Type} (net net1 : Net W) (m : Nat)
    (h : net1.script = net.script.tail) :
    net.failures (m + 1) =
      (if (net.script.headD ⟨none, none, none⟩).fails then 1 else 0) + net1.failures m := by
  unfold Net.failures
  rw [h]
  rcases net.script with _ | ⟨sc, rest⟩
  · simp [StreamScript.fails]
  · by_cases hf : sc.fails = true
    · simp [List.take_succ_cons, List.filter_cons, hf]
      omega
    · simp [List.take_succ_cons, List.filter_cons, hf]

/-- The loop of `Broadcast` serves one stream per attempted send, and the errors it
collects are as many as the sends that fail among those streams. -/
theorem broadcastLoop_errs {W : Type} (peerIDx : Int) (b : W) (ps : List PeerID) :
    ∀ (idx : Nat) (net : Net W) (errs : List Error), ∃ m,
      (broadcastLoop peerIDx b idx ps net errs).1.attempts.length = net.attempts.length + m ∧
      (broadcastLoop peerIDx b idx ps net errs).2.length = errs.length + net.failures m := by
  induction ps with
  | nil => intro idx net errs; exact ⟨0, by simp [broadcastLoop], by simp [broadcastLoop, Net.failures]⟩
  | cons p ps ih =>
    intro idx net errs
    unfold broadcastLoop
    by_cases hself : (idx : Int) = peerIDx
    · rw [if_pos hself]
      exact ih _ _ _
    · rw [if_neg hself]
      have ha := sendData_attempts net p b
      have hs := sendData_script net p b
      have he := sendData_err net p b
      rcases hsd : sendData net p b with ⟨_ | err, net1⟩
      · rw [hsd] at ha hs he
        obtain ⟨m, h1, h2⟩ := ih (idx + 1) net1 errs
        refine ⟨m + 1, ?_, ?_⟩
        · show (broadcastLoop peerIDx b (idx + 1) ps net1 errs).1.attempts.length = _
          rw [h1, ha]
          simp
          omega
        · show (broadcastLoop peerIDx b (idx + 1) ps net1 errs).2.length = _
          rw [h2, Net.failures_succ net net1 m hs, ← he]
          simp
      · rw [hsd] at ha hs he
        obtain ⟨m, h1, h2⟩ := ih (idx + 1) net1 (errs ++ [err])
        refine ⟨m + 1, ?_, ?_⟩
        · show (broadcastLoop peerIDx b (idx + 1) ps net1 (errs ++ [err])).1.attempts.length = _
          rw [h1, ha]
          simp
          omega
        · show (broadcastLoop peerIDx b (idx + 1) ps net1 (errs ++ [err])).2.length = _
          rw [h2, Net.failures_succ net net1 m hs, ← he]
          simp
          omega

/-- The errors `Broadcast` collects are as many as the sends that fail among the
streams to the other peers, when the message serializes. -/
theorem broadcastLoop_errs_count {W : Type} (t_peerIDx : Int) (peers : List PeerID) (b : W)
    (net : Net W) :
    (broadcastLoop t_peerIDx b 0 peers net []).2.length =
      net.failures (otherPeers t_peerIDx peers).length := by
  obtain ⟨m, h1, h2⟩ := broadcastLoop_errs t_peerIDx b peers 0 net []
  have h3 := broadcastLoop_attempts t_peerIDx b peers 0 net []
  have h4 : (broadcastLoop t_peerIDx b 0 peers net []).1.attempts =
      net.attempts ++ otherPeers t_peerIDx peers := by
    rw [h3]
    simp [otherPeers]
  rw [h4, List.length_append] at h1
  have hm : m = (otherPeers t_peerIDx peers).length := by omega
  rw [h2, hm]
  simp

/-- C13, as stated, fails: with a self index outside the peer list no peer is skipped,
and when the send to the only peer fails the reported "success" count is -1, while
the number of other peers whose send succeeded is 0. -/
theorem Broadcast_diagnostic_negative_success :
    (({ peerIDx := 1, peers := ["a"], ch := [] } : p2pTransport SampleData).Broadcast
        docJSON sampleCore { script := [⟨some (.new "open"), none, none⟩], trace := [] }
        0 ⟨5, .Attester⟩ [([107], .att 1)]).log =
        [.Warn "Leader propose value with errors"
          (some (.wrap (.new "open") "tcpNode stream")) [("success", -1), ("errors", 1)]] ∧
      otherPeers 1 ["a"] = ["a"] ∧
      ({ script := [⟨some (.new "open"), none, none⟩], trace := [] } : Net p2pMsgJSON).failures
        (otherPeers 1 ["a"]).length = 1 := by
  decide

/-- C13, amended: when the message serializes and at least one send fails, `Broadcast`
logs the warning whose "errors" count is the number of sends that failed and whose
"success" count is `len(peers) - len(errs) - 1`; that number is the number of other
peers whose send succeeded, hence not negative, when the self index lies within the
peer list. -/
theorem Broadcast_diagnostic {U W : Type} (lib : JSONLib W) (core : CoreLib U)
    (t : p2pTransport U) (net : Net W) (fromIdx : Int) (d : Duty) (data : UnsignedDataSet U)
    (b : W)
    (hser : p2pMsg.MarshalJSON lib core
      { Idx := 0, FromIdx := fromIdx, Duty := d, Data := data } = .ok b)
    (hfail : 0 < net.failures (otherPeers t.peerIDx t.peers).length) :
    (∃ e, (t.Broadcast lib core net fromIdx d data).log =
        [.Warn "Leader propose value with errors" (some e)
          [("success", (t.peers.length : Int) -
              (net.failures (otherPeers t.peerIDx t.peers).length : Int) - 1),
            ("errors", (net.failures (otherPeers t.peerIDx t.peers).length : Int))]]) ∧
      net.failures (otherPeers t.peerIDx t.peers).length ≤ (otherPeers t.peerIDx t.peers).length ∧
      (0 ≤ t.peerIDx → t.peerIDx < t.peers.length →
        (t.peers.length : Int) - (net.failures (otherPeers t.peerIDx t.peers).length : Int) - 1 =
          (((otherPeers t.peerIDx t.peers).length -
            net.failures (otherPeers t.peerIDx t.peers).length : Nat) : Int)) := by
  have hcount := broadcastLoop_errs_count t.peerIDx t.peers b net
  have hle : net.failures (otherPeers t.peerIDx t.peers).length ≤
      (otherPeers t.peerIDx t.peers).length := by
    unfold Net.failures
    exact (List.length_filter_le _ _).trans ((List.length_take_le _ _))
  refine ⟨?_, hle, ?_⟩
  · unfold p2pTransport.Broadcast
    rw [hser]
    dsimp only
    generalize hr : broadcastLoop t.peerIDx b 0 t.peers net [] = r at hcount
    obtain ⟨net1, _ | ⟨e, errs⟩⟩ := r
    · simp only [List.length_nil] at hcount
      omega
    · refine ⟨e, ?_⟩
      simp only at hcount
      simp only [hcount]
  · intro h0 h1
    have hlen : (otherPeers t.peerIDx t.peers).length = t.peers.length - 1 := by
      unfold otherPeers
      rw [if_pos h0]
      exact List.length_eraseIdx_of_lt (by omega)
    have hpos : 0 < t.peers.length := by omega
    omega

/-- The amended C13 at three peers, self index 1, where the stream to the first peer
fails: one error and one success are logged. -/
theorem Broadcast_diagnostic_witness :
    ∃ e, (({ peerIDx := 1, peers := ["a", "b", "c"], ch := [] } :
          p2pTransport SampleData).Broadcast
        docJSON sampleCore { script := [⟨some (.new "open"), none, none⟩], trace := [] }
        0 ⟨5, .Attester⟩ [([107], .att 1)]).log =
        [.Warn "Leader propose value with errors" (some e)
          [("success", ((["a", "b", "c"] : List PeerID).length : Int) -
              (({ script := [⟨some (.new "open"), none, none⟩], trace := [] } :
                Net p2pMsgJSON).failures (otherPeers 1 ["a", "b", "c"]).length : Int) - 1),
            ("errors", (({ script := [⟨some (.new "open"), none, none⟩], trace := [] } :
                Net p2pMsgJSON).failures (otherPeers 1 ["a", "b", "c"]).length : Int))]] :=
  (Broadcast_diagnostic docJSON sampleCore
    { peerIDx := 1, peers := ["a", "b", "c"], ch := [] }
    { script := [⟨some (.new "open"), none, none⟩], trace := [] }
    0 ⟨5, .Attester⟩ [([107], .att 1)]
    { Idx := 0, FromIdx := 0, Duty := ⟨5, .Attester⟩, Data := [([107], [1])] } rfl
    (by decide)).1

/-! ## Independence of the recipients from fromIdx -/

theorem rangeSet_WF {K V X : Type} [DecidableEq K] (f : V → Except Error X) (msg : String)
    (src : List (K × V)) :
    ∀ (dst out : List (K × X)), rangeSet f msg src dst = .ok out → GoMap.WF dst →
      GoMap.WF out := by
  induction src with
  | nil =>
    intro dst out h hwf
    simp only [rangeSet, Except.ok.injEq] at h
    exact h ▸ hwf
  | cons e src ih =>
    obtain ⟨k0, v0⟩ := e
    intro dst out h hwf
    unfold rangeSet at h
    rcases hf : f v0 with e1 | x
    · rw [hf] at h
      simp at h
    · rw [hf] at h
      exact ih _ out h (GoMap.WF_set _ _ _ hwf)

/-- Whether the message of a `Broadcast` serializes does not depend on `fromIdx`:
marshalling fails for every `fromIdx`, at an unsigned data value or at a raw value
that is no valid JSON text, or the message serializes for every `fromIdx`. -/
theorem MarshalJSON_fromIdx {U W : Type} (lib : JSONLib W) (tx : JSONText) (core : CoreLib U)
    (hlib : lib.Sound tx) (d : Duty) (data : UnsignedDataSet U) :
    (∀ fromIdx, ∃ e, p2pMsg.MarshalJSON lib core
        { Idx := 0, FromIdx := fromIdx, Duty := d, Data := data } = .error e) ∨
      (∀ fromIdx, ∃ b, p2pMsg.MarshalJSON lib core
        { Idx := 0, FromIdx := fromIdx, Duty := d, Data := data } = .ok b) := by
  rcases hrs : rangeSet core.MarshalJSON "marshal unsigned data" data [] with e | raw
  · refine Or.inl fun fromIdx => ⟨e, ?_⟩
    simp only [p2pMsg.MarshalJSON, hrs]
  · have hwf : GoMap.WF raw := rangeSet_WF _ _ data [] raw hrs List.nodup_nil
    by_cases hbad : ∃ k v, (k, v) ∈ raw ∧ tx.compact v = none
    · refine Or.inl fun fromIdx => ?_
      obtain ⟨e, he⟩ := (hlib { Idx := 0, FromIdx := fromIdx, Duty := d, Data := raw } hwf).1 hbad
      exact ⟨.wrap e "marshal p2p msg", by simp only [p2pMsg.MarshalJSON, hrs, he]⟩
    · refine Or.inr fun fromIdx => ?_
      have hvalid : ∀ k v, (k, v) ∈ raw → ∃ c, tx.compact v = some c := by
        intro k v hm
        cases hc : tx.compact v with
        | none => exact absurd ⟨k, v, hm, hc⟩ hbad
        | some c => exact ⟨c, rfl⟩
      obtain ⟨w, doc2, hM, _⟩ :=
        (hlib { Idx := 0, FromIdx := fromIdx, Duty := d, Data := raw } hwf).2 hvalid
      exact ⟨w, by simp only [p2pMsg.MarshalJSON, hrs, hM]⟩

theorem Broadcast_of_marshal_error {U W : Type} (lib : JSONLib W) (core : CoreLib U)
    (t : p2pTransport U) (net : Net W) (fromIdx : Int) (d : Duty) (data : UnsignedDataSet U)
    (e : Error)
    (h : p2pMsg.MarshalJSON lib core
      { Idx := 0, FromIdx := fromIdx, Duty := d, Data := data } = .error e) :
    t.Broadcast lib core net fromIdx d data =
      { err := some (.wrap e "marshal tcpNode msg"), net := net, log := [] } := by
  unfold p2pTransport.Broadcast
  rw [h]

theorem Broadcast_of_marshal_ok {U W : Type} (lib : JSONLib W) (core : CoreLib U)
    (t : p2pTransport U) (net : Net W) (fromIdx : Int) (d : Duty) (data : UnsignedDataSet U)
    (b : W)
    (h : p2pMsg.MarshalJSON lib core
      { Idx := 0, FromIdx := fromIdx, Duty := d, Data := data } = .ok b) :
    (t.Broadcast lib core net fromIdx d data).err = none ∧
      (t.Broadcast lib core net fromIdx d data).net.attempts =
        net.attempts ++ otherPeers t.peerIDx t.peers := by
  have hnet : (t.Broadcast lib core net fromIdx d data).err = none ∧
      (t.Broadcast lib core net fromIdx d data).net =
        (broadcastLoop t.peerIDx b 0 t.peers net []).1 := by
    unfold p2pTransport.Broadcast
    rw [h]
    dsimp only
    generalize broadcastLoop t.peerIDx b 0 t.peers net [] = r
    obtain ⟨net1, _ | ⟨e, errs⟩⟩ := r <;> exact ⟨rfl, rfl⟩
  refine ⟨hnet.1, ?_⟩
  rw [hnet.2, broadcastLoop_attempts]
  simp [otherPeers]

/-- The in-memory `Broadcast` gives up with the error of the context, for every
`fromIdx`, or appends its message to `input`, for every `fromIdx`. -/
theorem memBroadcast_cases {U : Type} (m : memTransport) (h : MemHub U) (ctx : Context)
    (pick : Bool) (d : Duty) (data : UnsignedDataSet U) :
    (∃ err, ∀ f, m.Broadcast h ctx pick f d data = (some err, h)) ∨
      (∀ f, m.Broadcast h ctx pick f d data =
        (none, { h with input := h.input ++ [⟨m.idx, f, d, data⟩] })) := by
  unfold memTransport.Broadcast
  rcases ctx with _ | err
  · exact Or.inr fun f => rfl
  · cases pick
    · exact Or.inr fun f => rfl
    · exact Or.inl ⟨err, fun f => rfl⟩

/-- The handles whose mailbox grows in the fan-out of a message: those of the
registry other than the sender of the message. -/
theorem grown_fanOut {U : Type} (h : MemHub U) (msg : p2pMsg U) (rest : List (p2pMsg U)) :
    h.grown { h with input := rest, outputs := fanOut msg h.outputs } =
      (GoMap.keys h.outputs).filter (fun j => !decide (msg.Idx = j)) := by
  unfold MemHub.grown
  apply List.filter_congr
  intro j hj
  obtain ⟨ch, hch⟩ := (GoMap.mem_keys_iff _ _).mp hj
  simp only [get?_fanOut, hch, Option.map_some', Option.getD_some]
  by_cases hself : msg.Idx = j <;> simp [hself]

/-- C14: the recipients of a `Broadcast` do not depend on `fromIdx`.  Two calls of the
peer-to-peer `Broadcast` that differ only in `fromIdx` both fail or both succeed and
request streams to the same peers: to the peer list without the entry at the self
index when the message serializes, and to none when it does not.  Two calls of the
in-memory `Broadcast` on a handle that differ only in `fromIdx` return the same
error; a call that returns an error leaves the hub as it is, and a call that returns
none appends to `input` the message with the index of the handle as `Idx` and with
`fromIdx`, the duty and the data set.  When `input` was empty, the next turn of
the delivery loop hands the message of either call to the same handles, those of
the registry other than the handle of the call, appends it to exactly their
mailboxes, and a receiver whose mailbox was empty gets back the `fromIdx` of the
call with the duty and the data set. -/
theorem Broadcast_recipients_independent_of_fromIdx {U W : Type} (lib : JSONLib W)
    (tx : JSONText) (core : CoreLib U) (hlib : lib.Sound tx) (t : p2pTransport U)
    (net : Net W) (m : memTransport) (h : MemHub U) (ctx : Context) (pick : Bool)
    (f1 f2 : Int) (d : Duty) (data : UnsignedDataSet U) :
    (((t.Broadcast lib core net f1 d data).err = none ↔
        (t.Broadcast lib core net f2 d data).err = none) ∧
      (t.Broadcast lib core net f1 d data).net.attempts =
        (t.Broadcast lib core net f2 d data).net.attempts ∧
      ((t.Broadcast lib core net f1 d data).err = none →
        (t.Broadcast lib core net f1 d data).net.attempts =
          net.attempts ++ otherPeers t.peerIDx t.peers) ∧
      ((t.Broadcast lib core net f1 d data).err ≠ none →
        (t.Broadcast lib core net f1 d data).net = net)) ∧
    ((m.Broadcast h ctx pick f1 d data).1 = (m.Broadcast h ctx pick f2 d data).1 ∧
      (∀ f, (m.Broadcast h ctx pick f d data).1 ≠ none →
        (m.Broadcast h ctx pick f d data).2 = h) ∧
      (∀ f, (m.Broadcast h ctx pick f d data).1 = none →
        (m.Broadcast h ctx pick f d data).2 =
          { h with input := h.input ++ [⟨m.idx, f, d, data⟩] }) ∧
      (h.input = [] → (m.Broadcast h ctx pick f1 d data).1 = none →
        ∃ h1 h2, (m.Broadcast h ctx pick f1 d data).2.deliver = some h1 ∧
          (m.Broadcast h ctx pick f2 d data).2.deliver = some h2 ∧
          h.grown h1 = h.grown h2 ∧
          h.grown h1 = (GoMap.keys h.outputs).filter (fun j => !decide (m.idx = j)) ∧
          (∀ j, GoMap.get? h1.outputs j = (GoMap.get? h.outputs j).map fun ch =>
            if m.idx = j then ch else ch ++ [⟨m.idx, f1, d, data⟩]) ∧
          (∀ j, GoMap.get? h2.outputs j = (GoMap.get? h.outputs j).map fun ch =>
            if m.idx = j then ch else ch ++ [⟨m.idx, f2, d, data⟩]) ∧
          (∀ j pick2, m.idx ≠ j → GoMap.get? h.outputs j = some [] →
            (∃ h3, (⟨j⟩ : memTransport).AwaitNext h1 none pick2 =
              some (⟨f1, d, data, none⟩, h3)) ∧
            (∃ h3, (⟨j⟩ : memTransport).AwaitNext h2 none pick2 =
              some (⟨f2, d, data, none⟩, h3))))) := by
  refine ⟨?_, ?_⟩
  · rcases MarshalJSON_fromIdx lib tx core hlib d data with herr | hok
    · obtain ⟨e1, he1⟩ := herr f1
      obtain ⟨e2, he2⟩ := herr f2
      rw [Broadcast_of_marshal_error lib core t net f1 d data e1 he1,
        Broadcast_of_marshal_error lib core t net f2 d data e2 he2]
      exact ⟨by simp, rfl, fun hn => by simp at hn, fun _ => rfl⟩
    · obtain ⟨b1, hb1⟩ := hok f1
      obtain ⟨b2, hb2⟩ := hok f2
      obtain ⟨h1, h2⟩ := Broadcast_of_marshal_ok lib core t net f1 d data b1 hb1
      obtain ⟨h3, h4⟩ := Broadcast_of_marshal_ok lib core t net f2 d data b2 hb2
      exact ⟨by simp [h1, h3], by rw [h2, h4], fun _ => h2, fun hne => absurd h1 hne⟩
  · rcases memBroadcast_cases m h ctx pick d data with ⟨err, hrej⟩ | hacc
    · refine ⟨by rw [hrej f1, hrej f2], fun f _ => by rw [hrej f], fun f hn => ?_,
        fun _ hn => ?_⟩
      · rw [hrej f] at hn
        cases hn
      · rw [hrej f1] at hn
        cases hn
    · refine ⟨by rw [hacc f1, hacc f2], fun f hne => ?_, fun f _ => by rw [hacc f],
        fun hin _ => ?_⟩
      · rw [hacc f] at hne
        exact absurd rfl hne
      · have hdel : ∀ f, (m.Broadcast h ctx pick f d data).2.deliver =
            some { h with input := [], outputs := fanOut ⟨m.idx, f, d, data⟩ h.outputs } := by
          intro f
          rw [hacc f]
          simp [MemHub.deliver, hin]
        have hget : ∀ f j,
            GoMap.get? (fanOut (⟨m.idx, f, d, data⟩ : p2pMsg U) h.outputs) j =
              (GoMap.get? h.outputs j).map fun ch =>
                if m.idx = j then ch else ch ++ [⟨m.idx, f, d, data⟩] :=
          fun f j => get?_fanOut _ h.outputs j
        have hrecv : ∀ f j pick2, m.idx ≠ j → GoMap.get? h.outputs j = some [] →
            ∃ h3, (⟨j⟩ : memTransport).AwaitNext
              ({ h with input := [], outputs := fanOut ⟨m.idx, f, d, data⟩ h.outputs } :
                MemHub U) none pick2 = some (⟨f, d, data, none⟩, h3) := by
          intro f j pick2 hne hempty
          refine ⟨MemHub.mk [] (GoMap.set (fanOut ⟨m.idx, f, d, data⟩ h.outputs) j []) h.index, ?_⟩
          simp only [memTransport.AwaitNext, memTransport.output, hget, hempty, Option.map_some',
            if_neg hne, List.nil_append, Option.getD_some, awaitSelect]
        refine ⟨_, _, hdel f1, hdel f2, ?_, grown_fanOut h _ [], hget f1, hget f2,
          fun j pick2 hne hempty => ⟨hrecv f1 j pick2 hne hempty, hrecv f2 j pick2 hne hempty⟩⟩
        rw [grown_fanOut h _ [], grown_fanOut h _ []]

/-- C14 at three peers with self index 1 and at a hub with three handles, for the
values 0 and 2 of `fromIdx`: the streams go to the peers `a` and `c`, and the
handles 1 and 2 are handed the message of the handle 0. -/
theorem Broadcast_recipients_independent_of_fromIdx_witness :
    (goJSON sampleText).Sound sampleText ∧
    (({ peerIDx := 1, peers := ["a", "b", "c"], ch := [] } : p2pTransport SampleData).Broadcast
        (goJSON sampleText) sampleCore { script := [], trace := [] } 0 ⟨5, .Attester⟩
        [([107], .att 49)]).net.attempts =
      (({ peerIDx := 1, peers := ["a", "b", "c"], ch := [] } : p2pTransport SampleData).Broadcast
        (goJSON sampleText) sampleCore { script := [], trace := [] } 2 ⟨5, .Attester⟩
        [([107], .att 49)]).net.attempts ∧
    (({ peerIDx := 1, peers := ["a", "b", "c"], ch := [] } : p2pTransport SampleData).Broadcast
        (goJSON sampleText) sampleCore { script := [], trace := [] } 2 ⟨5, .Attester⟩
        [([107], .att 49)]).net.attempts = ["a", "c"] ∧
    (∃ h1 h2,
      ((⟨0⟩ : memTransport).Broadcast (MemHub.registerN 3 (MemHub.init : MemHub SampleData))
        none true 0 ⟨5, .Attester⟩ [([107], .att 49)]).2.deliver = some h1 ∧
      ((⟨0⟩ : memTransport).Broadcast (MemHub.registerN 3 (MemHub.init : MemHub SampleData))
        none true 2 ⟨5, .Attester⟩ [([107], .att 49)]).2.deliver = some h2 ∧
      (MemHub.registerN 3 (MemHub.init : MemHub SampleData)).grown h1 =
        (MemHub.registerN 3 (MemHub.init : MemHub SampleData)).grown h2 ∧
      (MemHub.registerN 3 (MemHub.init : MemHub SampleData)).grown h1 = [1, 2]) :=
  have h := Broadcast_recipients_independent_of_fromIdx (goJSON sampleText) sampleText
    sampleCore (goJSON_sound sampleText)
    ({ peerIDx := 1, peers := ["a", "b", "c"], ch := [] } : p2pTransport SampleData)
    { script := [], trace := [] } ⟨0⟩ (MemHub.registerN 3 (MemHub.init : MemHub SampleData))
    none true 0 2 ⟨5, .Attester⟩ [([107], .att 49)]
  ⟨goJSON_sound sampleText, h.1.2.1, by decide,
    (h.2.2.2.2 rfl rfl).imp fun _ hx => hx.imp fun _ hy =>
      ⟨hy.1, hy.2.1, hy.2.2.1, hy.2.2.2.1⟩⟩

end Charon
